import Mathlib

/-!
Shallow embedding of the pytonl TONL codec (src/pytonl: types.py, utils.py,
encoder.py, decoder.py) together with proofs about the claims of the
specification.  Python strings are modelled as lists of characters; the helper
functions in this first section model the Python string primitives that the
source uses (strip, split, replace, splitlines, lower, substring search).
ASCII behaviour is modelled exactly; the Unicode-only corners of the Python
primitives (non-ASCII digits and whitespace) are outside the embedding.
-/

namespace Pytonl

abbrev Str := List Char

/-- Characters treated as whitespace by Python str.strip / str.split / isspace
(the ASCII ones). -/
def isPyWs (c : Char) : Bool :=
  c = ' ' || c = '\t' || c = '\n' || c = '\r' || c = '\x0b' || c = '\x0c'

def pyLstrip (s : Str) : Str := s.dropWhile isPyWs

def pyRstrip (s : Str) : Str := ((s.reverse).dropWhile isPyWs).reverse

/-- Python str.strip(). -/
def pyStrip (s : Str) : Str := pyRstrip (pyLstrip s)

/-- Recursion of Python str.replace on an explicit budget (the budget is
structural so that concrete instances compute; pyReplace supplies one unit
per character, which always suffices). -/
def pyReplaceAux (pat rep : Str) : Nat → Str → Str
  | 0, s => s
  | _, [] => []
  | fuel + 1, c :: rest =>
    if pat ≠ [] ∧ pat.isPrefixOf (c :: rest) then
      rep ++ pyReplaceAux pat rep fuel ((c :: rest).drop pat.length)
    else
      c :: pyReplaceAux pat rep fuel rest

/-- Python str.replace(pat, rep): leftmost, non-overlapping replacement. -/
def pyReplace (pat rep s : Str) : Str := pyReplaceAux pat rep s.length s

/-- Python str.lower(), ASCII case folding. -/
def pyLower (s : Str) : Str := s.map Char.toLower

/-- Python substring membership test (the in operator on strings). -/
def containsSub (pat : Str) : Str → Bool
  | [] => pat.isEmpty
  | c :: rest => pat.isPrefixOf (c :: rest) || containsSub pat rest

/-- Python str.splitlines() restricted to the line terminators that can occur
in this codec (\n, \r, \r\n). -/
def splitlinesAux : Str → Str → List Str
  | [], acc => if acc.isEmpty then [] else [acc.reverse]
  | '\r' :: '\n' :: rest, acc => acc.reverse :: splitlinesAux rest []
  | '\r' :: rest, acc => acc.reverse :: splitlinesAux rest []
  | '\n' :: rest, acc => acc.reverse :: splitlinesAux rest []
  | c :: rest, acc => splitlinesAux rest (c :: acc)

def pySplitlines (s : Str) : List Str := splitlinesAux s []

/-- Python str.split() with no argument: split on whitespace runs, dropping
empty tokens. -/
def pySplitWsAux : Str → Str → List Str
  | [], cur => if cur.isEmpty then [] else [cur.reverse]
  | c :: rest, cur =>
    if isPyWs c then
      if cur.isEmpty then pySplitWsAux rest []
      else cur.reverse :: pySplitWsAux rest []
    else pySplitWsAux rest (c :: cur)

def pySplitWs (s : Str) : List Str := pySplitWsAux s []

def digitChar (n : Nat) : Char := Char.ofNat (48 + n)

/-- Digit recursion on an explicit structural budget (one unit per digit,
which natToDigits oversupplies). -/
def natToDigitsAux : Nat → Nat → Str
  | 0, n => [digitChar n]
  | fuel + 1, n =>
    if n < 10 then [digitChar n]
    else natToDigitsAux fuel (n / 10) ++ [digitChar (n % 10)]

/-- Decimal digits of a natural number, most significant first (Python str). -/
def natToDigits (n : Nat) : Str := natToDigitsAux n n

/-- Python str(i) for an int. -/
def intRepr (i : Int) : Str :=
  if i < 0 then '-' :: natToDigits i.natAbs else natToDigits i.natAbs

/-- Numeric value of a list of decimal digit characters. -/
def digitsVal (s : Str) : Nat := s.foldl (fun a c => 10 * a + (c.toNat - 48)) 0

/-- Python int(s).  Total model: call sites in the source only apply it to
tokens that already passed the numeric-literal check. -/
def pyIntOfString (s : Str) : Int :=
  let t := pyStrip s
  match t with
  | '-' :: ds => - (digitsVal ds : Int)
  | '+' :: ds => (digitsVal ds : Int)
  | ds => (digitsVal ds : Int)

/-- End-of-input for an anchored Python regex: the dollar anchor matches at the
end of the string or just before one trailing newline. -/
def atLineEnd (s : Str) : Bool := s = [] || s = ['\n']

/-- Tail of the optional exponent group of the numeric regex. -/
def numExpTail (t : Str) : Bool :=
  let t1 := match t with | '+' :: u => u | '-' :: u => u | u => u
  let p := t1.span Char.isDigit
  !p.1.isEmpty && atLineEnd p.2

/-- Python re.match of the pattern in utils.is_number (a leading minus sign,
one or more digits, an optional dot, optional digits, an optional exponent,
anchored at both ends), digits modelled as 0-9. -/
def is_number (s : Str) : Bool :=
  let s1 := match s with | '-' :: t => t | t => t
  let p1 := s1.span Char.isDigit
  if p1.1.isEmpty then false
  else
    let r2 := match p1.2 with | '.' :: t => t | t => t
    let p2 := r2.span Char.isDigit
    match p2.2 with
    | 'e' :: t => numExpTail t
    | 'E' :: t => numExpTail t
    | r3 => atLineEnd r3

/-!  The value model shared by encoder and decoder (types.py).  Python floats
appear in this codec only as parsed tokens and three special values; the
embedding keeps finite float literals symbolically as their source token,
since IEEE semantics are outside a shallow embedding and no claim depends on
float arithmetic. -/

inductive PyFloat where
  | nan
  | inf
  | neginf
  | lit (token : Str)
deriving DecidableEq, Repr

inductive Value where
  | null
  | bool (b : Bool)
  | int (n : Int)
  | float (f : PyFloat)
  | str (s : Str)
  | list (items : List Value)
  | obj (fields : List (Str × Value))

/-- TONL primitive type hints (types.TONLType). -/
inductive TONLType where
  | null | bool | u32 | i32 | f64 | str | obj | list
deriving DecidableEq, Repr

/-- The string value attached to each TONLType enum member. -/
def TONLType.value : TONLType → Str
  | .null => "null".data
  | .bool => "bool".data
  | .u32 => "u32".data
  | .i32 => "i32".data
  | .f64 => "f64".data
  | .str => "str".data
  | .obj => "obj".data
  | .list => "list".data

structure EncodeOptions where
  delimiter : Str
  include_types : Bool
  indent : Nat
  version : Str
  single_line_threshold : Nat
deriving Repr

/-- EncodeOptions() with the dataclass defaults of types.py. -/
def defaultEncodeOptions : EncodeOptions :=
  ⟨[','], false, 2, "1.0".data, 80⟩

structure DecodeOptions where
  strict : Bool
  auto_detect_delimiter : Bool
deriving Repr

/-- DecodeOptions() with the dataclass defaults of types.py. -/
def defaultDecodeOptions : DecodeOptions :=
  ⟨false, true⟩

/-! utils.py -/

mutual

/-- Total delimiter occurrences in the strings of a value tree
(utils.select_best_delimiter, inner count_in_data): only string values are
counted, and for maps only the values are visited. -/
def countCharInValue (c : Char) : Value → Nat
  | .str s => s.count c
  | .list xs => countCharInList c xs
  | .obj fs => countCharInFields c fs
  | _ => 0
termination_by structural v => v

def countCharInList (c : Char) : List Value → Nat
  | [] => 0
  | v :: rest => countCharInValue c v + countCharInList c rest
termination_by structural xs => xs

def countCharInFields (c : Char) : List (Str × Value) → Nat
  | [] => 0
  | (_, v) :: rest => countCharInValue c v + countCharInFields c rest
termination_by structural fs => fs

end

/-- Python min(xs, key=key) seeded with a first candidate: keeps the earliest
element whose key is strictly smaller than the current best. -/
def pyMinBy (key : Char → Nat) : List Char → Char → Char
  | [], best => best
  | c :: rest, best => if key c < key best then pyMinBy key rest c else pyMinBy key rest best

/-- Array to analyse in utils.select_best_delimiter: the data itself when it
is a list, the wrapped value when the data is a single-key dict wrapping a
list, nothing otherwise (comma is then returned directly). -/
def selectArray (data : Value) : Option Value :=
  match data with
  | .list _ => some data
  | .obj [(_, v)] => (match v with | .list _ => some v | _ => none)
  | _ => none

/-- Spreadsheet heuristic of utils.select_best_delimiter: the analysed list
is non-empty and its first element is a dict with a key starting with col. -/
def selectIsTabular (d : Value) : Bool :=
  match d with
  | .list (first :: _) =>
    (match first with
     | .obj fs => fs.any (fun kv => "col".data.isPrefixOf kv.1)
     | _ => false)
  | _ => false

/-- utils.select_best_delimiter. -/
def select_best_delimiter (data : Value) : Str :=
  match selectArray data with
  | none => [',']
  | some d =>
    if selectIsTabular d && countCharInValue '\t' d = 0 then ['\t']
    else [pyMinBy (fun c => countCharInValue c d) ['|', '\t', ';'] ',']

/-- utils.infer_type. -/
def infer_type : Value → TONLType
  | .null => .null
  | .bool _ => .bool
  | .int n =>
    if 0 ≤ n ∧ n ≤ 4294967295 then .u32
    else if -2147483648 ≤ n ∧ n ≤ 2147483647 then .i32
    else .f64
  | .float _ => .f64
  | .str _ => .str
  | .list _ => .list
  | .obj _ => .obj

def reservedWords : List Str :=
  ["null".data, "true".data, "false".data, "undefined".data,
   "infinity".data, "-infinity".data, "nan".data]

/-- utils.needs_quoting.  The in_single_line_object flag is accepted and, as in
the source, never read. -/
def needs_quoting (value : Str) (delimiter : Str)
    (in_single_line_object : Bool) (in_tabular_context : Bool) : Bool :=
  if value = [] then true
  else if containsSub delimiter value then true
  else
    let special : List Char :=
      ['\n', '\r', '\t', '"', '\\'] ++ (if in_tabular_context then [] else [':'])
    if special.any (fun ch => value.contains ch) then true
    else if value ≠ pyStrip value then true
    else if reservedWords.contains (pyLower value) then true
    else if is_number value then true
    else false

def tripleQuote : Str := ['"', '"', '"']

/-- utils.quote_string. -/
def quote_string (value : Str) : Str :=
  if containsSub ['\n'] value || containsSub tripleQuote value then
    let e1 := pyReplace ['\\'] ['\\', '\\'] value
    let e2 := pyReplace tripleQuote ('\\' :: tripleQuote) e1
    tripleQuote ++ e2 ++ tripleQuote
  else
    let e1 := pyReplace ['\\'] ['\\', '\\'] value
    let e2 := pyReplace ['"'] ['"', '"'] e1
    '"' :: e2 ++ ['"']

/-- utils.unquote_string. -/
def unquote_string (value : Str) : Str :=
  let v := pyStrip value
  if tripleQuote.isPrefixOf v && tripleQuote.isSuffixOf v && decide (6 ≤ v.length) then
    let content := (v.drop 3).take (v.length - 6)
    pyReplace ['\\', '\\'] ['\\'] (pyReplace ('\\' :: tripleQuote) tripleQuote content)
  else if ['"'].isPrefixOf v && ['"'].isSuffixOf v && decide (2 ≤ v.length) then
    let content := (v.drop 1).take (v.length - 2)
    pyReplace ['\\', '\\'] ['\\'] (pyReplace ['"', '"'] ['"'] content)
  else v

/-- utils.parse_primitive_value.  A finite float token is kept symbolically. -/
def parse_primitive_value (value_str : Str) : Value :=
  let trimmed := pyStrip value_str
  if (['"'].isPrefixOf trimmed && ['"'].isSuffixOf trimmed)
      || (tripleQuote.isPrefixOf trimmed && tripleQuote.isSuffixOf trimmed) then
    .str (unquote_string trimmed)
  else if trimmed = "null".data || trimmed = [] then .null
  else if trimmed = "true".data then .bool true
  else if trimmed = "false".data then .bool false
  else if is_number trimmed then
    if trimmed.contains '.' || (pyLower trimmed).contains 'e' then .float (.lit trimmed)
    else .int (pyIntOfString trimmed)
  else
    let lower := pyLower trimmed
    if lower = "infinity".data then .float .inf
    else if lower = "-infinity".data then .float .neginf
    else if lower = "nan".data then .float .nan
    else .str trimmed

inductive SplitMode where
  | plain | inQuote | inTripleQuote
deriving DecidableEq, Repr

/-- State machine of utils.split_line_by_delimiter.  The source compares the
single character under the cursor (and the lookahead character) with the
delimiter string, so a multi-character delimiter never matches, exactly as in
Python. -/
def splitFields (delim : Str) : Str → SplitMode → Str → List Str → List Str
  | [], _, cur, acc => acc ++ [pyStrip cur]
  | '"' :: '"' :: '"' :: rest, .plain, cur, acc =>
    splitFields delim rest .inTripleQuote (cur ++ tripleQuote) acc
  | '"' :: rest, .plain, cur, acc => splitFields delim rest .inQuote (cur ++ ['"']) acc
  | c :: c2 :: rest, .plain, cur, acc =>
    if c = '\\' && [c2] = delim then
      splitFields delim rest .plain (cur ++ delim) acc
    else if [c] = delim then
      splitFields delim (c2 :: rest) .plain [] (acc ++ [pyStrip cur])
    else splitFields delim (c2 :: rest) .plain (cur ++ [c]) acc
  | [c], .plain, cur, acc =>
    if [c] = delim then acc ++ [pyStrip cur, []]
    else acc ++ [pyStrip (cur ++ [c])]
  | '"' :: '"' :: rest, .inQuote, cur, acc =>
    splitFields delim rest .inQuote (cur ++ ['"', '"']) acc
  | '"' :: rest, .inQuote, cur, acc => splitFields delim rest .plain (cur ++ ['"']) acc
  | c :: rest, .inQuote, cur, acc => splitFields delim rest .inQuote (cur ++ [c]) acc
  | '"' :: '"' :: '"' :: rest, .inTripleQuote, cur, acc =>
    splitFields delim rest .plain (cur ++ tripleQuote) acc
  | c :: rest, .inTripleQuote, cur, acc => splitFields delim rest .inTripleQuote (cur ++ [c]) acc

/-- utils.split_line_by_delimiter. -/
def split_line_by_delimiter (line : Str) (delimiter : Str) : List Str :=
  splitFields delimiter line .plain [] []

/-- utils.is_valid_identifier: one letter or underscore, then letters, digits
or underscores. -/
def is_valid_identifier (name : Str) : Bool :=
  match name with
  | [] => false
  | c :: rest => (c.isAlpha || c = '_') && rest.all (fun d => d.isAlphanum || d = '_')

/-! encoder.py -/

def isObjValue : Value → Bool
  | .obj _ => true
  | _ => false

def isNestedValue : Value → Bool
  | .obj _ => true
  | .list _ => true
  | _ => false

def objKeys : Value → List Str
  | .obj fs => fs.map Prod.fst
  | _ => []

def objFieldsOf : Value → List (Str × Value)
  | .obj fs => fs
  | _ => []

/-- Python dict item access or .get: first binding of the key, None when the
key is absent. -/
def pyDictGet (fs : List (Str × Value)) (k : Str) : Value :=
  match fs.find? (fun kv => kv.1 = k) with
  | some kv => kv.2
  | none => .null

/-- Python set equality on key lists (set(a) == set(b)). -/
def sameKeySet (a b : List Str) : Bool :=
  a.all (fun k => b.contains k) && b.all (fun k => a.contains k)

mutual

/-- Python repr/str of a value.  Only reachable from the dead nested-value
fallbacks of the encoder (str(value) on a dict or list); kept executable. -/
def pyRepr : Value → Str
  | .null => "None".data
  | .bool b => if b then "True".data else "False".data
  | .int n => intRepr n
  | .float f =>
    (match f with
     | .nan => "nan".data
     | .inf => "inf".data
     | .neginf => "-inf".data
     | .lit t => t)
  | .str s => '\'' :: s ++ ['\'']
  | .list xs => '[' :: pyReprList xs ++ [']']
  | .obj fs => '\x7b' :: pyReprFields fs ++ ['\x7d']
termination_by structural v => v

def pyReprList : List Value → Str
  | [] => []
  | [v] => pyRepr v
  | v :: rest => pyRepr v ++ ", ".data ++ pyReprList rest
termination_by structural xs => xs

def pyReprFields : List (Str × Value) → Str
  | [] => []
  | [(k, v)] => '\'' :: k ++ '\'' :: ": ".data ++ pyRepr v
  | (k, v) :: rest => '\'' :: k ++ '\'' :: ": ".data ++ pyRepr v ++ ", ".data ++ pyReprFields rest
termination_by structural fs => fs

end

/-- Python s.split(".", 1): the part before the first dot and the part after. -/
def splitAtDot (s : Str) : Str × Str :=
  (s.takeWhile (fun c => c ≠ '.'), (s.dropWhile (fun c => c ≠ '.')).drop 1)

/-- Integrality test for a symbolic finite float token: no exponent and all
fractional digits zero (models float.is_integer on the parsed token). -/
def floatLitIsInteger (t : Str) : Bool :=
  !(pyLower t).contains 'e' && ((splitAtDot t).2.all (fun c => c = '0'))

/-- Formatting of a finite float (TONLEncoder._format_primitive_value, float
branch): the natural representation, except that an integral float with a
single fractional digit is padded to two fractional digits.  The shortest
IEEE repr of the token is abstracted as the token itself. -/
def formatFloatToken (t : Str) : Str :=
  if !t.contains '.' then t
  else
    let parts := splitAtDot t
    if floatLitIsInteger t && parts.2.length = 1 then
      parts.1 ++ '.' :: parts.2 ++ ['0']
    else t

/-- TONLEncoder._format_primitive_value. -/
def _format_primitive_value (delim : Str) (v : Value)
    (in_single_line_object : Bool) (in_tabular_context : Bool) : Str :=
  match v with
  | .bool b => if b then "true".data else "false".data
  | .int n => intRepr n
  | .float f =>
    (match f with
     | .nan => "NaN".data
     | .inf => "Infinity".data
     | .neginf => "-Infinity".data
     | .lit t => formatFloatToken t)
  | .str s =>
    if needs_quoting s delim in_single_line_object in_tabular_context then quote_string s else s
  | .null => "null".data
  | .list _ => pyRepr v
  | .obj _ => pyRepr v

def indentStr (opts : EncodeOptions) (lvl : Nat) : Str :=
  List.replicate (lvl * opts.indent) ' '

/-- Field separator used when joining rows and primitive arrays: comma gets no
leading space, tab is bare, every other delimiter gets a space on both
sides. -/
def delimiterSep (delim : Str) : Str :=
  if delim = [','] then ", ".data
  else if delim = ['\t'] then ['\t']
  else ' ' :: delim ++ [' ']

/-- TONLEncoder._is_uniform_object_array. -/
def _is_uniform_object_array (arr : List Value) : Bool :=
  match arr with
  | [] => false
  | first :: _ =>
    if !arr.all isObjValue then false
    else if !arr.all (fun it => sameKeySet (objKeys it) (objKeys first)) then false
    else if arr.any (fun it => (objFieldsOf it).any (fun kv => isNestedValue kv.2)) then false
    else true

/-- Column definitions for a header (shared by the object and tabular-array
encoders): each key, optionally annotated with an inferred type. -/
def colDefs (opts : EncodeOptions) (fields : List (Str × Value)) : List Str :=
  fields.map (fun kv =>
    if opts.include_types then
      let th := infer_type kv.2
      if th.value ≠ "obj".data ∧ th.value ≠ "list".data then kv.1 ++ ':' :: th.value
      else kv.1
    else kv.1)

/-- TONLEncoder._encode_tabular_array. -/
def _encode_tabular_array (opts : EncodeOptions) (delim : Str) (lvl : Nat)
    (arr : List Value) (key : Str) : List Str :=
  let ind := indentStr opts lvl
  let firstFields := objFieldsOf (arr.headD .null)
  let columns := firstFields.map Prod.fst
  let header := ind ++ key ++ '[' :: natToDigits arr.length ++ [']']
    ++ '\x7b' :: List.intercalate [','] (colDefs opts firstFields) ++ ['\x7d', ':']
  let rows := arr.map (fun item =>
    let row_values := columns.map (fun col =>
      let val := pyDictGet (objFieldsOf item) col
      if isNestedValue val then pyRepr val
      else _format_primitive_value delim val false true)
    ind ++ ' ' :: ' ' :: List.intercalate (delimiterSep delim) row_values)
  header :: rows

/-- TONLEncoder._encode_primitive_array. -/
def _encode_primitive_array (opts : EncodeOptions) (delim : Str) (lvl : Nat)
    (arr : List Value) (key : Str) : List Str :=
  let ind := indentStr opts lvl
  let formatted := arr.map (fun x => _format_primitive_value delim x false false)
  let joined := List.intercalate (delimiterSep delim) formatted
  if joined.length < opts.single_line_threshold then
    [ind ++ key ++ '[' :: natToDigits arr.length ++ ']' :: ':' :: ' ' :: joined]
  else
    [ind ++ key ++ '[' :: natToDigits arr.length ++ [']', ':'],
     ind ++ ' ' :: ' ' :: joined]

/-- TONLEncoder._should_use_multiline. -/
def _should_use_multiline (opts : EncodeOptions) (delim : Str)
    (fields : List (Str × Value)) : Bool :=
  if fields.any (fun kv =>
      isNestedValue kv.2 ||
      (match kv.2 with | .str s => containsSub ['\n'] s | _ => false)) then true
  else
    let total := fields.foldl (fun acc kv =>
      acc + kv.1.length + 2 +
        (if isNestedValue kv.2 then 4
         else (_format_primitive_value delim kv.2 true false).length) + 1) 0
    decide (opts.single_line_threshold < total)

mutual

/-- TONLEncoder._encode_value.  The dict and list branches of the source
dispatch to _encode_object and _encode_array; their bodies are inlined here
so that the recursion is structural, and the named wrappers defined after
this block are definitionally those branches. -/
def _encode_value (opts : EncodeOptions) (delim : Str) (lvl : Nat)
    (v : Value) (key : Str) : List Str :=
  match v with
  | .obj fs =>
    if fs.isEmpty then [indentStr opts lvl ++ key ++ ['\x7b', '\x7d', ':']]
    else
      let header := indentStr opts lvl ++ key
        ++ '\x7b' :: List.intercalate [','] (colDefs opts fs) ++ ['\x7d', ':']
      if _should_use_multiline opts delim fs then
        header :: _encode_obj_fields opts delim (lvl + 1) fs
      else
        [header ++ ' ' :: List.intercalate [' '] (fs.map (fun kv =>
          kv.1 ++ ':' :: ' ' :: _format_primitive_value delim kv.2 true false))]
  | .list xs =>
    if xs.isEmpty then [indentStr opts lvl ++ key ++ "[0]:".data]
    else if _is_uniform_object_array xs then _encode_tabular_array opts delim lvl xs key
    else if xs.all (fun x => !isNestedValue x) then _encode_primitive_array opts delim lvl xs key
    else
      (indentStr opts lvl ++ key ++ '[' :: natToDigits xs.length ++ [']', ':'])
        :: _encode_mixed_items opts delim (lvl + 1) xs 0
  | _ => [indentStr opts lvl ++ key ++ ':' :: ' ' :: _format_primitive_value delim v false false]
termination_by structural v

/-- Loop body of TONLEncoder._encode_mixed_array: one recursively encoded
entry per element under synthetic bracket keys. -/
def _encode_mixed_items (opts : EncodeOptions) (delim : Str) (lvl : Nat)
    (xs : List Value) (i : Nat) : List Str :=
  match xs with
  | [] => []
  | x :: rest =>
    _encode_value opts delim lvl x ('[' :: natToDigits i ++ [']'])
      ++ _encode_mixed_items opts delim lvl rest (i + 1)
termination_by structural xs

/-- Loop body of the multi-line branch of TONLEncoder._encode_object. -/
def _encode_obj_fields (opts : EncodeOptions) (delim : Str) (lvl : Nat)
    (fs : List (Str × Value)) : List Str :=
  match fs with
  | [] => []
  | (k, v) :: rest => _encode_value opts delim lvl v k ++ _encode_obj_fields opts delim lvl rest
termination_by structural fs

end

/-- TONLEncoder._encode_array (the list branch of _encode_value). -/
def _encode_array (opts : EncodeOptions) (delim : Str) (lvl : Nat)
    (xs : List Value) (key : Str) : List Str :=
  if xs.isEmpty then [indentStr opts lvl ++ key ++ "[0]:".data]
  else if _is_uniform_object_array xs then _encode_tabular_array opts delim lvl xs key
  else if xs.all (fun x => !isNestedValue x) then _encode_primitive_array opts delim lvl xs key
  else
    (indentStr opts lvl ++ key ++ '[' :: natToDigits xs.length ++ [']', ':'])
      :: _encode_mixed_items opts delim (lvl + 1) xs 0

/-- TONLEncoder._encode_object (the dict branch of _encode_value).  The keys
filter of the source keeps every key (its second disjunct is always true),
so all fields are encoded. -/
def _encode_object (opts : EncodeOptions) (delim : Str) (lvl : Nat)
    (fs : List (Str × Value)) (key : Str) : List Str :=
  if fs.isEmpty then [indentStr opts lvl ++ key ++ ['\x7b', '\x7d', ':']]
  else
    let header := indentStr opts lvl ++ key
      ++ '\x7b' :: List.intercalate [','] (colDefs opts fs) ++ ['\x7d', ':']
    if _should_use_multiline opts delim fs then
      header :: _encode_obj_fields opts delim (lvl + 1) fs
    else
      [header ++ ' ' :: List.intercalate [' '] (fs.map (fun kv =>
        kv.1 ++ ':' :: ' ' :: _format_primitive_value delim kv.2 true false))]

/-- Delimiter resolution of TONLEncoder.encode: the forced delimiter when it
is truthy (non-empty), otherwise the auto-selector. -/
def resolveDelimiter (opts : EncodeOptions) (data : Value) : Str :=
  if opts.delimiter.isEmpty then select_best_delimiter data else opts.delimiter

/-- Root encoding of TONLEncoder.encode: a single-key dict whose value is a
dict or list is unwrapped onto its own key, everything else goes under the
synthetic root key. -/
def encodeRootLines (opts : EncodeOptions) (delim : Str) (data : Value) : List Str :=
  match data with
  | .obj [(k, v)] =>
    (match v with
     | .obj _ => _encode_value opts delim 0 v k
     | .list _ => _encode_value opts delim 0 v k
     | _ => _encode_value opts delim 0 data "root".data)
  | _ => _encode_value opts delim 0 data "root".data

/-- TONLEncoder.encode: version header, optional delimiter header, and the
root value. -/
def encodeLines (opts : EncodeOptions) (data : Value) : List Str :=
  let delim := resolveDelimiter opts data
  (("#version ".data ++ opts.version)
      :: (if delim ≠ [','] then [("#delimiter ".data ++ delim)] else []))
    ++ encodeRootLines opts delim data

/-- Module-level convenience function encoder.encode. -/
def encode (opts : EncodeOptions) (data : Value) : Str :=
  List.intercalate ['\n'] (encodeLines opts data)

/-! decoder.py.  The decoder can fail (unsupported version header, strict-mode
coercion) and its loops advance a cursor; loops whose progress is not
structural carry a fuel argument that decode instantiates generously, so fuel
exhaustion is unreachable on the inputs reasoned about below. -/

inductive DecodeErr where
  | unsupportedVersion (line : Str)
  | coercionFailure (raw : Str) (hint : Str)
  | attributeFailure
  | outOfFuel
deriving DecidableEq, Repr

/-- Modelled from the spec: utils.coerce_typed_value is imported by decoder.py
but absent from src/pytonl/utils.py.  Spec sections 3 and 7 say that in strict
mode type hints found in headers are enforced/coerced during decode and a
token that fails coercion (for example a non-numeric token for a u32 hint) is
reported as an error, the integer ranges being the ones of the type-inference
table; outside strict mode hints are advisory and the ordinary primitive
parse is used. -/
def coerce_typed_value (raw : Str) (hint : Str) (strict : Bool) : Except DecodeErr Value :=
  if !strict then .ok (parse_primitive_value raw)
  else
    let t := pyStrip raw
    if hint = "u32".data || hint = "i32".data then
      if is_number t && !t.contains '.' && !(pyLower t).contains 'e' then
        let n := pyIntOfString t
        if hint = "u32".data then
          if 0 ≤ n ∧ n ≤ 4294967295 then .ok (.int n) else .error (.coercionFailure raw hint)
        else
          if -2147483648 ≤ n ∧ n ≤ 2147483647 then .ok (.int n)
          else .error (.coercionFailure raw hint)
      else .error (.coercionFailure raw hint)
    else if hint = "f64".data then
      (match parse_primitive_value t with
       | .int n => .ok (.int n)
       | .float f => .ok (.float f)
       | _ => .error (.coercionFailure raw hint))
    else if hint = "bool".data then
      if t = "true".data then .ok (.bool true)
      else if t = "false".data then .ok (.bool false)
      else .error (.coercionFailure raw hint)
    else if hint = "str".data then
      (match parse_primitive_value t with
       | .str s => .ok (.str s)
       | _ => .ok (.str t))
    else if hint = "null".data then
      if t = "null".data || t = [] then .ok .null else .error (.coercionFailure raw hint)
    else .ok (parse_primitive_value raw)

/-- Python dict assignment d[k] = v on an insertion-ordered association list:
overwrite in place or append. -/
def pyAssocSet {α : Type} (fs : List (Str × α)) (k : Str) (v : α) : List (Str × α) :=
  if fs.any (fun kv => kv.1 = k) then fs.map (fun kv => if kv.1 = k then (k, v) else kv)
  else fs ++ [(k, v)]

/-- Python dict.update. -/
def pyUpdateFields (fs fs' : List (Str × Value)) : List (Str × Value) :=
  fs'.foldl (fun acc kv => pyAssocSet acc kv.1 kv.2) fs

def isWordChar (c : Char) : Bool := c.isAlphanum || c = '_'

def chAt (line : Str) (i : Nat) : Char := line.getD i ' '

def sliceStr (line : Str) (a b : Nat) : Str := (line.drop a).take (b - a)

def sliceIs (line : Str) (i : Nat) (pat : Str) : Bool := pat.isPrefixOf (line.drop i)

/-- Index just past a whitespace run (budgeted structural recursion; every
wrapper below supplies at least one unit per remaining character). -/
def skipWsAux (line : Str) : Nat → Nat → Nat
  | 0, i => i
  | fuel + 1, i =>
    if i < line.length && isPyWs (chAt line i) then skipWsAux line fuel (i + 1) else i

def skipWs (line : Str) (i : Nat) : Nat := skipWsAux line (line.length + 1) i

/-- Index just past a run of characters satisfying p. -/
def scanWhileAux (p : Char → Bool) (line : Str) : Nat → Nat → Nat
  | 0, i => i
  | fuel + 1, i =>
    if i < line.length && p (chAt line i) then scanWhileAux p line fuel (i + 1) else i

def scanWhile (p : Char → Bool) (line : Str) (i : Nat) : Nat :=
  scanWhileAux p line (line.length + 1) i

/-- Scan of the closing triple quote inside parse_key_value_pairs (an
unescaped triple quote ends the token three characters later). -/
def scanTripleEndAux (line : Str) : Nat → Nat → Nat
  | 0, i => i
  | fuel + 1, i =>
    if i < line.length then
      if sliceIs line i tripleQuote && chAt line (i - 1) ≠ '\\' then i + 3
      else scanTripleEndAux line fuel (i + 1)
    else i

def scanTripleEnd (line : Str) (i : Nat) : Nat := scanTripleEndAux line (line.length + 1) i

/-- Scan of the closing quote of a single-quoted token inside
parse_key_value_pairs, doubling-aware. -/
def scanSingleEndAux (line : Str) : Nat → Nat → Nat
  | 0, i => i
  | fuel + 1, i =>
    if i < line.length then
      if chAt line i = '"' then
        if i + 1 < line.length && chAt line (i + 1) = '"' then scanSingleEndAux line fuel (i + 2)
        else i + 1
      else scanSingleEndAux line fuel (i + 1)
    else i

def scanSingleEnd (line : Str) (i : Nat) : Nat := scanSingleEndAux line (line.length + 1) i

/-- Scan of the end of an unquoted value inside parse_key_value_pairs: stops
at a whitespace run followed by an identifier and a colon. -/
def scanUnquotedEndAux (line : Str) : Nat → Nat → Nat
  | 0, i => i
  | fuel + 1, i =>
    if i < line.length then
      if isPyWs (chAt line i) then
        let j := skipWs line (i + 1)
        if j < line.length then
          let k := scanWhile isWordChar line j
          let k2 := skipWs line k
          if k2 < line.length && chAt line k2 = ':' && j < k then i
          else scanUnquotedEndAux line fuel (i + 1)
        else scanUnquotedEndAux line fuel (i + 1)
      else scanUnquotedEndAux line fuel (i + 1)
    else i

def scanUnquotedEnd (line : Str) (i : Nat) : Nat := scanUnquotedEndAux line (line.length + 1) i

/-- Modelled from the spec (argument handling only): decoder.py passes
type_hints and strict to parse_key_value_pairs, which the utils variant in
the tree does not accept; per spec sections 4.4 and 7, strict mode coerces
values of hinted keys and errors on violation, otherwise the ordinary
primitive parse applies. -/
def kvAssignValue (value_str key : Str) (type_hints : List (Str × Str)) (strict : Bool) :
    Except DecodeErr Value :=
  match type_hints.find? (fun kv => kv.1 = key) with
  | some kv =>
    if strict then coerce_typed_value value_str kv.2 strict
    else .ok (parse_primitive_value value_str)
  | none => .ok (parse_primitive_value value_str)

/-- Outer loop of utils.parse_key_value_pairs.  The source can loop forever
without advancing (a non-identifier, non-colon character after a key); fuel
cuts that divergence into an explicit error. -/
def parseKvPairsAux (line : Str) (type_hints : List (Str × Str)) (strict : Bool) :
    Nat → Nat → List (Str × Value) → Except DecodeErr (List (Str × Value))
  | 0, _, _ => .error .outOfFuel
  | fuel + 1, i0, result =>
    let i := skipWs line i0
    if i ≥ line.length then .ok result
    else
      let keyEnd := scanWhile isWordChar line i
      let key := sliceStr line i keyEnd
      let i2 := skipWs line keyEnd
      if i2 < line.length then
        if chAt line i2 = ':' then
          let i3 := skipWs line (i2 + 1)
          if i3 < line.length then
            if chAt line i3 = '"' then
              let iEnd :=
                if i3 + 2 < line.length && sliceIs line i3 tripleQuote then
                  scanTripleEnd line (i3 + 3)
                else scanSingleEnd line (i3 + 1)
              let value_str := sliceStr line i3 iEnd
              match kvAssignValue value_str key type_hints strict with
              | .error e => .error e
              | .ok v => parseKvPairsAux line type_hints strict fuel iEnd (pyAssocSet result key v)
            else
              let iEnd := scanUnquotedEnd line i3
              let value_str := pyStrip (sliceStr line i3 iEnd)
              match kvAssignValue value_str key type_hints strict with
              | .error e => .error e
              | .ok v => parseKvPairsAux line type_hints strict fuel iEnd (pyAssocSet result key v)
          else .ok result
        else parseKvPairsAux line type_hints strict fuel i2 result
      else .ok result
termination_by structural fuel _ _ => fuel

/-- utils.parse_key_value_pairs with the extended signature used by the
decoder. -/
def parse_key_value_pairs (line : Str) (type_hints : List (Str × Str)) (strict : Bool) :
    Except DecodeErr (List (Str × Value)) :=
  parseKvPairsAux line type_hints strict (line.length + 2) 0 []

structure HeaderInfo where
  key : Str
  is_array : Bool
  array_size : Option Nat
  columns : List Str
  type_hints : List (Str × Str)
  rest : Str
deriving Repr

/-- Key alternative of the header and key-value regexes: a word run or a
bracketed decimal index. -/
def matchKeyTok (s : Str) : Option (Str × Str) :=
  match s with
  | '[' :: rest =>
    let ds := rest.takeWhile Char.isDigit
    (match rest.drop ds.length with
     | ']' :: rest3 => if ds.isEmpty then none else some ('[' :: ds ++ [']'], rest3)
     | _ => none)
  | _ =>
    let w := s.takeWhile isWordChar
    if w.isEmpty then none else some (w, s.drop w.length)

/-- Optional array-size group of the header regex; a malformed bracket makes
the whole header fail (the required colon cannot match a bracket). -/
def matchOptSize (s : Str) : Option (Option Nat × Str) :=
  match s with
  | '[' :: rest =>
    let ds := rest.takeWhile Char.isDigit
    (match rest.drop ds.length with
     | ']' :: rest3 => if ds.isEmpty then none else some (some (digitsVal ds), rest3)
     | _ => none)
  | _ => some (none, s)

/-- Optional column-list group of the header regex (brace, any characters
other than a closing brace, closing brace). -/
def matchOptCols (s : Str) : Option (Option Str × Str) :=
  match s with
  | '\x7b' :: rest =>
    let cs := rest.takeWhile (fun c => c ≠ '\x7d')
    (match rest.drop cs.length with
     | '\x7d' :: rest3 => some (some cs, rest3)
     | _ => none)
  | _ => some (none, s)

/-- Python s.split(sep) for a one-character separator, keeping empty parts. -/
def pySplitChar (sep : Char) : Str → List Str
  | [] => [[]]
  | c :: rest =>
    if c = sep then [] :: pySplitChar sep rest
    else
      match pySplitChar sep rest with
      | t :: ts => (c :: t) :: ts
      | [] => [[c]]

/-- Column parsing of TONLDecoder._parse_header: names with optional type
hints, empty parts skipped. -/
def parseColumnsSpec (columns_str : Str) : List Str × List (Str × Str) :=
  (pySplitChar ',' columns_str).foldl (fun acc part =>
    let p := pyStrip part
    if p.isEmpty then acc
    else if p.contains ':' then
      let name := pyStrip (p.takeWhile (fun c => c ≠ ':'))
      let hint := pyStrip ((p.dropWhile (fun c => c ≠ ':')).drop 1)
      if name.isEmpty then acc
      else (acc.1 ++ [name], if hint.isEmpty then acc.2 else pyAssocSet acc.2 name hint)
    else (acc.1 ++ [p], acc.2)) ([], [])

/-- TONLDecoder._parse_header: a block header must carry an array-size
bracket or a column-brace list. -/
def _parse_header (line : Str) : Option HeaderInfo :=
  match matchKeyTok line with
  | none => none
  | some (key, r1) =>
    match matchOptSize r1 with
    | none => none
    | some (size, r2) =>
      match matchOptCols r2 with
      | none => none
      | some (cols, r3) =>
        (match r3 with
         | ':' :: r4 =>
           if size = none ∧ cols = none then none
           else
             let parsed :=
               match cols with
               | some cs => if cs.isEmpty then ([], []) else parseColumnsSpec cs
               | none => ([], [])
             some ⟨key, size.isSome, size, parsed.1, parsed.2, r4.dropWhile isPyWs⟩
         | _ => none)

/-- TONLDecoder._parse_key_value. -/
def _parse_key_value (line : Str) : Option (Str × Str) :=
  match matchKeyTok line with
  | none => none
  | some (key, r1) =>
    (match r1 with
     | ':' :: r2 => some (key, r2.dropWhile isPyWs)
     | _ => none)

/-- Inner helper of TONLDecoder._parse_lines: an unescaped closing triple
quote somewhere in a line. -/
def hasUnescapedTriple : Str → Option Char → Bool
  | '"' :: '"' :: '"' :: rest, prev =>
    if prev ≠ some '\\' then true else hasUnescapedTriple rest (some '"')
  | c :: rest, _ => hasUnescapedTriple rest (some c)
  | [], _ => false

/-- Accumulation loop for a multi-line triple-quoted value. -/
def accumTriple : List Str → Str → Nat → Str × Nat
  | [], combined, consumed => (combined, consumed)
  | next :: rest, combined, consumed =>
    let combined2 := combined ++ '\n' :: next
    if hasUnescapedTriple next none then (combined2, consumed + 1)
    else accumTriple rest combined2 (consumed + 1)

def isIndexKey (key : Str) : Bool := ['['].isPrefixOf key && [']'].isSuffixOf key

/-- Leading-whitespace width of a line. -/
def indentOf (line : Str) : Nat := line.length - (pyLstrip line).length

/-- Column loop of the tabular-row parser: values mapped onto column names,
missing trailing fields omitted, strict hints coerced. -/
def parseRowCols (strict : Bool) (type_hints : List (Str × Str)) (row_values : List Str) :
    List Str → Nat → List (Str × Value) → Except DecodeErr (List (Str × Value))
  | [], _, obj => .ok obj
  | col :: cols, j, obj =>
    if j < row_values.length then
      let raw := row_values.getD j []
      match type_hints.find? (fun kv => kv.1 = col) with
      | some kv =>
        if !kv.2.isEmpty && strict then
          match coerce_typed_value raw kv.2 true with
          | .error e => .error e
          | .ok v => parseRowCols strict type_hints row_values cols (j + 1) (pyAssocSet obj col v)
        else
          parseRowCols strict type_hints row_values cols (j + 1)
            (pyAssocSet obj col (parse_primitive_value raw))
      | none =>
        parseRowCols strict type_hints row_values cols (j + 1)
          (pyAssocSet obj col (parse_primitive_value raw))
    else parseRowCols strict type_hints row_values cols (j + 1) obj

/-- Row loop of the tabular branch of TONLDecoder._parse_block (budgeted;
the budget passed down from decode always covers the remaining lines). -/
def parseTabularRows (opts : DecodeOptions) (delim : Str) (lines : List Str)
    (hdr : HeaderInfo) (fli : Nat) :
    Nat → Nat → List Value → Except DecodeErr (Value × Nat)
  | 0, _, _ => .error .outOfFuel
  | fuel + 1, consumed, acc =>
    if consumed < lines.length then
      let line := lines.getD consumed []
      if !(pyStrip line).isEmpty && indentOf line ≤ fli then .ok (.list acc, consumed)
      else if (pyStrip line).isEmpty then
        parseTabularRows opts delim lines hdr fli fuel (consumed + 1) acc
      else
        match parseRowCols opts.strict hdr.type_hints
            (split_line_by_delimiter (pyStrip line) delim) hdr.columns 0 [] with
        | .error e => .error e
        | .ok o => parseTabularRows opts delim lines hdr fli fuel (consumed + 1) (acc ++ [.obj o])
    else .ok (.list acc, consumed)
termination_by structural fuel _ _ => fuel

mutual

/-- TONLDecoder._parse_lines.  The indent_level parameter is accepted and, as
in the source, never read. -/
def _parse_lines (opts : DecodeOptions) (delim : Str) :
    Nat → List Str → Nat → Except DecodeErr (Option Value × Nat)
  | 0, _, _ => .error .outOfFuel
  | fuel + 1, lines, _indent_level =>
    match lines with
    | [] => .ok (none, 0)
    | first :: _ =>
      let stripped := pyStrip first
      match _parse_header stripped with
      | some hdr =>
        (match _parse_block opts delim fuel lines hdr with
         | .error e => .error e
         | .ok (result, consumed) =>
           if isIndexKey hdr.key then .ok (some result, consumed)
           else .ok (some (.obj [(hdr.key, result)]), consumed))
      | none =>
        match _parse_key_value stripped with
        | some (key, value_str) =>
          let sv := pyStrip value_str
          if tripleQuote.isPrefixOf sv && !(tripleQuote.isSuffixOf sv) then
            let acc := accumTriple (lines.drop 1) sv 1
            .ok (some (.obj [(key, parse_primitive_value acc.1)]), acc.2)
          else
            .ok (some (.obj [(key, parse_primitive_value value_str)]), 1)
        | none => .ok (none, 1)
termination_by structural fuel _ _ => fuel

/-- TONLDecoder._parse_block. -/
def _parse_block (opts : DecodeOptions) (delim : Str) :
    Nat → List Str → HeaderInfo → Except DecodeErr (Value × Nat)
  | 0, _, _ => .error .outOfFuel
  | fuel + 1, lines, hdr =>
    let fli := indentOf (lines.headD [])
    if hdr.rest ≠ [] then
      if hdr.is_array then
        if (pyStrip hdr.rest).isEmpty then .ok (.list [], 1)
        else
          .ok (.list ((split_line_by_delimiter hdr.rest delim).map parse_primitive_value), 1)
      else
        match parse_key_value_pairs hdr.rest hdr.type_hints opts.strict with
        | .error e => .error e
        | .ok fs => .ok (.obj fs, 1)
    else
      if hdr.is_array then
        if hdr.columns ≠ [] then parseTabularRows opts delim lines hdr fli fuel 1 []
        else parseMixedItems opts delim fuel lines fli 1 []
      else parseObjChildren opts delim fuel lines fli 1 []
termination_by structural fuel _ _ => fuel

/-- Mixed-array loop of TONLDecoder._parse_block (indexed entries, one per
element; an unparseable child contributes None). -/
def parseMixedItems (opts : DecodeOptions) (delim : Str) :
    Nat → List Str → Nat → Nat → List Value → Except DecodeErr (Value × Nat)
  | 0, _, _, _, _ => .error .outOfFuel
  | fuel + 1, lines, fli, i, acc =>
    if i < lines.length then
      let line := lines.getD i []
      if !(pyStrip line).isEmpty && indentOf line ≤ fli then .ok (.list acc, i)
      else if (pyStrip line).isEmpty then parseMixedItems opts delim fuel lines fli (i + 1) acc
      else
        match _parse_lines opts delim fuel (lines.drop i) (indentOf line) with
        | .error e => .error e
        | .ok (sub, c) =>
          let subV : Value :=
            match sub with
            | some (.obj [(k, v)]) => if isIndexKey k then v else .obj [(k, v)]
            | some v => v
            | none => .null
          parseMixedItems opts delim fuel lines fli (i + c) (acc ++ [subV])
    else .ok (.list acc, i)
termination_by structural fuel _ _ _ _ => fuel

/-- Object-children loop of TONLDecoder._parse_block (later keys overwrite
earlier ones). -/
def parseObjChildren (opts : DecodeOptions) (delim : Str) :
    Nat → List Str → Nat → Nat → List (Str × Value) → Except DecodeErr (Value × Nat)
  | 0, _, _, _, _ => .error .outOfFuel
  | fuel + 1, lines, fli, i, acc =>
    if i < lines.length then
      let line := lines.getD i []
      if !(pyStrip line).isEmpty && indentOf line ≤ fli then .ok (.obj acc, i)
      else if (pyStrip line).isEmpty then parseObjChildren opts delim fuel lines fli (i + 1) acc
      else
        match _parse_lines opts delim fuel (lines.drop i) (indentOf line) with
        | .error e => .error e
        | .ok (sub, c) =>
          let acc2 :=
            match sub with
            | some (.obj fs') => pyUpdateFields acc fs'
            | _ => acc
          parseObjChildren opts delim fuel lines fli (i + c) acc2
    else .ok (.obj acc, i)
termination_by structural fuel _ _ _ _ => fuel

end

/-- Python truthiness of a value (only the falsiness of the containers and
scalars matters to the decoder's top loop); the zero test of a symbolic float
token checks that every mantissa digit is zero. -/
def floatTokenIsZero (t : Str) : Bool :=
  (t.takeWhile (fun c => c ≠ 'e' ∧ c ≠ 'E')).all
    (fun c => c = '0' || c = '.' || c = '-' || c = '+')

def pyFalsy : Value → Bool
  | .null => true
  | .bool b => !b
  | .int n => n = 0
  | .float f => (match f with | .lit t => floatTokenIsZero t | _ => false)
  | .str s => s.isEmpty
  | .list xs => xs.isEmpty
  | .obj fs => fs.isEmpty

/-- Top-level accumulation loop of TONLDecoder.decode: dict results are
merged, a non-dict result replaces an empty accumulator, updating a non-dict
accumulator with a dict is the AttributeError of the source. -/
def decodeTopLoop (opts : DecodeOptions) (delim : Str) :
    Nat → List Str → Nat → Value → Except DecodeErr Value
  | 0, _, _, _ => .error .outOfFuel
  | fuel + 1, data_lines, i, result =>
    if i < data_lines.length then
      let line := data_lines.getD i []
      if (pyStrip line).isEmpty then decodeTopLoop opts delim fuel data_lines (i + 1) result
      else
        match _parse_lines opts delim fuel (data_lines.drop i) 0 with
        | .error e => .error e
        | .ok (sub, c) =>
          match sub with
          | some (.obj fs') =>
            (match result with
             | .obj fs => decodeTopLoop opts delim fuel data_lines (i + c) (.obj (pyUpdateFields fs fs'))
             | _ => .error .attributeFailure)
          | some v =>
            if pyFalsy result then decodeTopLoop opts delim fuel data_lines (i + c) v
            else decodeTopLoop opts delim fuel data_lines (i + c) result
          | none => decodeTopLoop opts delim fuel data_lines (i + c) result
    else .ok result
termination_by structural fuel _ _ _ => fuel

def rstripChar (c : Char) (s : Str) : Str := (s.reverse.dropWhile (fun x => x = c)).reverse

/-- TONLDecoder._parse_headers, returning the data-line suffix (the source
returns the equivalent start index) and the active delimiter. -/
def parseHeadersAux : List Str → Str → Except DecodeErr (List Str × Str)
  | [], delim => .ok ([], delim)
  | original :: rest, delim =>
    let line := pyStrip original
    if line.isEmpty then parseHeadersAux rest delim
    else if "#version".data.isPrefixOf line then
      let parts := pySplitWs line
      if parts.length = 2 ∧ parts.getD 0 [] = "#version".data ∧ parts.getD 1 [] = "1.0".data then
        parseHeadersAux rest delim
      else .error (.unsupportedVersion line)
    else if "#delimiter".data.isPrefixOf line then
      let ss := pyLstrip original
      if "#delimiter".data.isPrefixOf ss then
        let val_part := rstripChar '\r' (rstripChar '\n' (ss.drop 10))
        if (pyStrip val_part).isEmpty then
          if val_part.contains '\t' then parseHeadersAux rest ['\t']
          else parseHeadersAux rest delim
        else
          let d := pyStrip val_part
          if d = ['\\', 't'] then parseHeadersAux rest ['\t'] else parseHeadersAux rest d
      else parseHeadersAux rest delim
    else if line.headD ' ' = '@' then parseHeadersAux rest delim
    else .ok (original :: rest, delim)

/-- Final unwrap step of TONLDecoder.decode, written with the shape of the
source: a single-key dict result whose key is root yields the bare value. -/
def finalRootUnwrap (result : Value) : Value :=
  match result with
  | .obj [(k, v)] => if k = "root".data then v else .obj [(k, v)]
  | _ => result

/-- Fuel budget for a decode: depends only on the number of data lines, so
identical line lists get identical budgets. -/
def decodeFuel (dl : List Str) : Nat := (dl.length + 2) * (dl.length + 2)

/-- TONLDecoder.decode up to (excluding) the final root unwrap: header
phase, then the top-level accumulation loop over the data lines. -/
def decodeTop (opts : DecodeOptions) (tonl_str : Str) : Except DecodeErr Value :=
  let lines := pySplitlines tonl_str
  match parseHeadersAux lines [','] with
  | .error e => .error e
  | .ok (data_lines, delim) =>
    if data_lines.isEmpty then .ok (.obj [])
    else decodeTopLoop opts delim (decodeFuel data_lines) data_lines 0 (.obj [])

/-- TONLDecoder.decode: the fully parsed top-level result, root-unwrapped. -/
def decode (opts : DecodeOptions) (tonl_str : Str) : Except DecodeErr Value :=
  (decodeTop opts tonl_str).map finalRootUnwrap

/-! Auxiliary lemmas -/

theorem stripAllWs (t : Str) (ht : t.all isPyWs = true) : pyStrip t = [] := by
  have h1 : pyLstrip t = [] := by
    rw [pyLstrip, List.dropWhile_eq_nil_iff]
    intro x hx
    exact List.all_eq_true.mp ht x hx
  rw [pyStrip, h1]
  rfl

/-! Claim C9 -/

/-- C9: the empty string is always quoted by the encoder (needs_quoting is
true for it under every delimiter and context), quote_string of the empty
string is the two-character token of two double quotes,
parse_primitive_value maps that token back to the empty string, while an
empty or whitespace-only token parses to Null — the empty-string-to-Null
collapse concerns only unquoted empty value text. -/
theorem C9_quoted_empty_string_survives (d : Str) (slo tab : Bool) (t : Str)
    (ht : t.all isPyWs = true) :
    needs_quoting [] d slo tab = true ∧
    quote_string [] = ['"', '"'] ∧
    parse_primitive_value ['"', '"'] = .str [] ∧
    parse_primitive_value t = .null := by
  refine ⟨rfl, rfl, rfl, ?_⟩
  have h := stripAllWs t ht
  simp [parse_primitive_value, h, tripleQuote]

/-- Witness for C9: delimiter comma, token of two spaces. -/
theorem C9_quoted_empty_string_survives_witness :
    ("  ".data.all isPyWs = true) ∧
    (needs_quoting [] [','] false false = true ∧
     quote_string [] = ['"', '"'] ∧
     parse_primitive_value ['"', '"'] = Value.str [] ∧
     parse_primitive_value "  ".data = Value.null) :=
  ⟨by decide, C9_quoted_empty_string_survives [','] false false "  ".data (by decide)⟩

/-! Claim C10 -/

/-- C10: default options force the comma delimiter for every input value,
the header section of the output is exactly the version line (no delimiter
header line is emitted), and the auto-selector decides the delimiter exactly
when the caller passes a falsy (empty) delimiter. -/
theorem C10_default_options_bypass_selection (data : Value) (opts : EncodeOptions)
    (hopts : opts.delimiter = []) :
    resolveDelimiter defaultEncodeOptions data = [','] ∧
    encodeLines defaultEncodeOptions data
      = ("#version ".data ++ defaultEncodeOptions.version)
          :: encodeRootLines defaultEncodeOptions [','] data ∧
    resolveDelimiter opts data = select_best_delimiter data := by
  refine ⟨rfl, ?_, ?_⟩
  · simp [encodeLines, resolveDelimiter, defaultEncodeOptions]
  · simp [resolveDelimiter, hopts]

/-- Witness for C10 at the null value and an explicit empty-delimiter
option record. -/
theorem C10_default_options_bypass_selection_witness :
    ((⟨[], false, 2, "1.0".data, 80⟩ : EncodeOptions).delimiter = []) ∧
    (resolveDelimiter defaultEncodeOptions Value.null = [','] ∧
     encodeLines defaultEncodeOptions Value.null
       = ("#version ".data ++ defaultEncodeOptions.version)
           :: encodeRootLines defaultEncodeOptions [','] Value.null ∧
     resolveDelimiter ⟨[], false, 2, "1.0".data, 80⟩ Value.null
       = select_best_delimiter Value.null) :=
  ⟨rfl, C10_default_options_bypass_selection Value.null ⟨[], false, 2, "1.0".data, 80⟩ rfl⟩

/-! Claim C4 -/

/-- Exponent tail of the numeric grammars. -/
def claimExpTail (t : Str) : Bool :=
  let t1 := match t with | '+' :: u => u | '-' :: u => u | u => u
  let p := t1.span Char.isDigit
  !p.1.isEmpty && p.2.isEmpty

/-- Numeric-literal grammar exactly as the claim writes it: an optional
minus, one or more digits, an optional dot followed by at least one digit,
an optional exponent. -/
def claimNumberGrammar (s : Str) : Bool :=
  let s1 := match s with | '-' :: t => t | t => t
  let p1 := s1.span Char.isDigit
  if p1.1.isEmpty then false
  else
    match p1.2 with
    | '.' :: t =>
      let p2 := t.span Char.isDigit
      if p2.1.isEmpty then false
      else
        (match p2.2 with
         | 'e' :: u => claimExpTail u
         | 'E' :: u => claimExpTail u
         | u => u.isEmpty)
    | 'e' :: u => claimExpTail u
    | 'E' :: u => claimExpTail u
    | u => u.isEmpty

/-- Characterization of needs_quoting exactly as the claim lists it, with
the numeric grammar as a parameter so that the claimed and the actual
grammars can be compared. -/
def claimNeedsQuoting (numGrammar : Str → Bool) (value delimiter : Str)
    (in_tabular_context : Bool) : Bool :=
  decide (value = []) ||
  containsSub delimiter value ||
  value.contains '\n' || value.contains '\r' || value.contains '\t' ||
  value.contains '"' || value.contains '\\' ||
  (value.contains ':' && !in_tabular_context) ||
  decide (value ≠ pyStrip value) ||
  reservedWords.contains (pyLower value) ||
  numGrammar value

/-- C4 counterexample: a digit followed by a dot is quoted by the source
(the code's numeric check accepts a trailing dot) although the claimed
grammar rejects it, so the claimed characterization differs from
needs_quoting. -/
theorem C4_counterexample :
    needs_quoting ['1', '.'] [','] false false = true ∧
    claimNeedsQuoting claimNumberGrammar ['1', '.'] [','] false = false :=
  ⟨by decide, by decide⟩

theorem ite_cond_or (c : Prop) [Decidable c] (b : Bool) :
    (if c then true else b) = (decide c || b) := by
  by_cases h : c <;> simp [h]

/-- C4 amended: the claimed characterization of needs_quoting holds once its
numeric-literal grammar is the code's one (digits, an optional dot, optional
digits, an optional exponent — a trailing dot also counts as numeric). -/
theorem C4_needs_quoting_characterization (value delimiter : Str) (slo tab : Bool) :
    needs_quoting value delimiter slo tab
      = claimNeedsQuoting is_number value delimiter tab := by
  cases tab <;>
    simp [needs_quoting, claimNeedsQuoting, ite_cond_or, List.any_append, List.any_cons,
      List.any_nil, Bool.or_assoc]

/-! Claim C8 -/

/-- Root-unwrapping policy as the specification words it: if the fully
parsed top-level result is a map with exactly one key and that key equals
root, return that key's value unwrapped; otherwise return the result
as-is. -/
def specRootUnwrap (result : Value) : Value :=
  match result with
  | .obj [(k, v)] => if k = "root".data then v else result
  | _ => result

/-- C8: decode is the pre-unwrap top-level parse followed by exactly the
claimed policy — only a single-key map whose key equals root is unwrapped;
any other single-key map, in particular one whose sole value is a list, is
returned as-is with its key preserved. -/
theorem C8_root_unwrapping (opts : DecodeOptions) (text : Str) (k : Str) (v : Value)
    (hk : k ≠ "root".data) :
    decode opts text = (decodeTop opts text).map specRootUnwrap ∧
    specRootUnwrap (.obj [("root".data, v)]) = v ∧
    specRootUnwrap (.obj [(k, v)]) = .obj [(k, v)] ∧
    (∀ xs : List Value, specRootUnwrap (.obj [(k, .list xs)]) = .obj [(k, .list xs)]) := by
  have hsame : ∀ r, finalRootUnwrap r = specRootUnwrap r := by
    intro r
    match r with
    | .null | .bool _ | .int _ | .float _ | .str _ | .list _ => rfl
    | .obj [] => rfl
    | .obj [(k', v')] => rfl
    | .obj ((k1, v1) :: (k2, v2) :: rest) => rfl
  refine ⟨?_, by simp [specRootUnwrap], by simp [specRootUnwrap, hk],
    fun xs => by simp [specRootUnwrap, hk]⟩
  show (decodeTop opts text).map finalRootUnwrap = (decodeTop opts text).map specRootUnwrap
  cases decodeTop opts text <;> simp [Except.map, hsame]

/-- Witness for C8 at a concrete text and the non-root key a. -/
theorem C8_root_unwrapping_witness :
    ("a".data ≠ "root".data) ∧
    (decode defaultDecodeOptions "x: 1".data
       = (decodeTop defaultDecodeOptions "x: 1".data).map specRootUnwrap ∧
     specRootUnwrap (.obj [("root".data, Value.null)]) = Value.null ∧
     specRootUnwrap (.obj [("a".data, Value.null)]) = .obj [("a".data, Value.null)] ∧
     (∀ xs : List Value,
       specRootUnwrap (.obj [("a".data, .list xs)]) = .obj [("a".data, .list xs)])) :=
  ⟨by decide, C8_root_unwrapping defaultDecodeOptions "x: 1".data "a".data Value.null (by decide)⟩

/-! Claim C6 -/

/-- C6: a non-empty list whose elements are maps sharing one key set with
only scalar values always encodes in the tabular form (the column header
followed by one delimiter-joined row per element); if the elements are maps
but any one key set differs, or any value is itself a list or map, the
encoder produces the mixed-array form instead. -/
theorem C6_tabular_uniformity (opts : EncodeOptions) (delim : Str) (lvl : Nat) (key : Str) :
    (∀ xs : List Value, xs ≠ [] →
      xs.all isObjValue = true →
      xs.all (fun it => sameKeySet (objKeys it) (objKeys (xs.headD .null))) = true →
      xs.any (fun it => (objFieldsOf it).any (fun kv => isNestedValue kv.2)) = false →
      _encode_array opts delim lvl xs key = _encode_tabular_array opts delim lvl xs key ∧
      (_encode_tabular_array opts delim lvl xs key).length = 1 + xs.length) ∧
    (∀ xs : List Value, xs ≠ [] →
      xs.all isObjValue = true →
      xs.all (fun it => sameKeySet (objKeys it) (objKeys (xs.headD .null))) = false →
      _encode_array opts delim lvl xs key
        = (indentStr opts lvl ++ key ++ '[' :: natToDigits xs.length ++ [']', ':'])
            :: _encode_mixed_items opts delim (lvl + 1) xs 0) ∧
    (∀ xs : List Value, xs ≠ [] →
      xs.all isObjValue = true →
      xs.any (fun it => (objFieldsOf it).any (fun kv => isNestedValue kv.2)) = true →
      _encode_array opts delim lvl xs key
        = (indentStr opts lvl ++ key ++ '[' :: natToDigits xs.length ++ [']', ':'])
            :: _encode_mixed_items opts delim (lvl + 1) xs 0) := by
  have hnested : ∀ w : Value, isObjValue w = true → isNestedValue w = true := by
    intro w hw
    cases w <;> simp_all [isObjValue, isNestedValue]
  have hallprim : ∀ (x : Value) (rest : List Value),
      (x :: rest).all isObjValue = true →
      (x :: rest).all (fun w => !isNestedValue w) = false := by
    intro x rest hobj
    have hx : isObjValue x = true := by
      have := List.all_eq_true.mp hobj x (by simp)
      simpa using this
    simp [List.all_cons, hnested x hx]
  refine ⟨?_, ?_, ?_⟩
  · rintro ⟨⟩ hne hobj hkeys hnest
    · exact absurd rfl hne
    case cons x rest =>
      have huni : _is_uniform_object_array (x :: rest) = true := by
        simp only [_is_uniform_object_array]
        simp only [List.headD] at hkeys
        simp [hobj, hkeys, hnest]
      constructor
      · simp [_encode_array, huni]
      · simp only [_encode_tabular_array, List.length_cons, List.length_map]
        omega
  · rintro ⟨⟩ hne hobj hkeys
    · exact absurd rfl hne
    case cons x rest =>
      have huni : _is_uniform_object_array (x :: rest) = false := by
        simp only [_is_uniform_object_array]
        simp only [List.headD] at hkeys
        simp [hobj, hkeys]
      simp [_encode_array, huni, hallprim x rest hobj]
  · rintro ⟨⟩ hne hobj hnest
    · exact absurd rfl hne
    case cons x rest =>
      have huni : _is_uniform_object_array (x :: rest) = false := by
        simp only [_is_uniform_object_array]
        by_cases hkeys : (x :: rest).all
            (fun it => sameKeySet (objKeys it) (objKeys x)) = true <;>
          simp [hobj, hkeys, hnest]
      simp [_encode_array, huni, hallprim x rest hobj]

/-- Witness for C6: a uniform two-element array, a key-set break of its
second element, and a nested list inside its second element. -/
theorem C6_tabular_uniformity_witness :
    (([Value.obj [("a".data, Value.int 1)], Value.obj [("a".data, Value.int 2)]] : List Value)
        ≠ []) ∧
    (_encode_array defaultEncodeOptions [','] 0
        [Value.obj [("a".data, Value.int 1)], Value.obj [("a".data, Value.int 2)]] "k".data
      = _encode_tabular_array defaultEncodeOptions [','] 0
        [Value.obj [("a".data, Value.int 1)], Value.obj [("a".data, Value.int 2)]] "k".data) ∧
    (_encode_array defaultEncodeOptions [','] 0
        [Value.obj [("a".data, Value.int 1)], Value.obj [("b".data, Value.int 2)]] "k".data
      = ("k[2]:".data :: _encode_mixed_items defaultEncodeOptions [','] 1
          [Value.obj [("a".data, Value.int 1)], Value.obj [("b".data, Value.int 2)]] 0)) ∧
    (_encode_array defaultEncodeOptions [','] 0
        [Value.obj [("a".data, Value.int 1)], Value.obj [("a".data, Value.list [])]] "k".data
      = ("k[2]:".data :: _encode_mixed_items defaultEncodeOptions [','] 1
          [Value.obj [("a".data, Value.int 1)], Value.obj [("a".data, Value.list [])]] 0)) := by
  have h := C6_tabular_uniformity defaultEncodeOptions [','] 0 "k".data
  refine ⟨List.cons_ne_nil _ _, ?_, ?_, ?_⟩
  · exact (h.1 _ (List.cons_ne_nil _ _) (by decide) (by decide) (by decide)).1
  · exact h.2.1 _ (List.cons_ne_nil _ _) (by decide) (by decide)
  · exact h.2.2 _ (List.cons_ne_nil _ _) (by decide) (by decide)

/-! Claim C5 -/

/-- Delimiter selection exactly as the claim words it: same unwrapping and
candidate counting as the source, but with the tab exception demanding that
the list be an array of maps whose keys have the col prefix (every element a
map, every key prefixed). -/
def claimSelectDelimiter (data : Value) : Str :=
  match selectArray data with
  | none => [',']
  | some d =>
    let claimTab : Bool :=
      match d with
      | .list items =>
        !items.isEmpty && items.all (fun it =>
          match it with
          | .obj fs => fs.all (fun kv => "col".data.isPrefixOf kv.1)
          | _ => false)
      | _ => false
    if claimTab && countCharInValue '\t' d = 0 then ['\t']
    else [pyMinBy (fun c => countCharInValue c d) ['|', '\t', ';'] ',']

/-- C5 counterexample: a one-element list whose map has the keys col and b.
The code's heuristic looks only at the first element and fires on any single
col-prefixed key, so it returns tab, while the rule as claimed (maps whose
keys have the col prefix) does not fire and the zero-count tie-break gives
comma. -/
theorem C5_counterexample :
    select_best_delimiter
        (.list [.obj [("col".data, Value.int 1), ("b".data, Value.int 2)]]) = ['\t'] ∧
    claimSelectDelimiter
        (.list [.obj [("col".data, Value.int 1), ("b".data, Value.int 2)]]) = [','] ∧
    (['\t'] : Str) ≠ [','] :=
  ⟨by decide, by decide, by decide⟩

/-- C5 amended: with no forced delimiter — comma whenever the top-level
value (after unwrapping a single-key map wrapping a list) is not a list;
otherwise tab when the code's heuristic (first element a map with at least
one col-prefixed key) fires and the tab count is zero; otherwise the
candidate with the fewest occurrences over every string leaf, ties broken
toward the enumeration order comma, pipe, tab, semicolon. -/
theorem C5_delimiter_selection (data : Value) :
    (selectArray data = none → select_best_delimiter data = [',']) ∧
    (∀ d, selectArray data = some d →
      (selectIsTabular d = true → countCharInValue '\t' d = 0 →
        select_best_delimiter data = ['\t']) ∧
      (selectIsTabular d = false ∨ countCharInValue '\t' d ≠ 0 →
        ∃ c, select_best_delimiter data = [c] ∧ c ∈ ([',', '|', '\t', ';'] : List Char) ∧
          (∀ c' ∈ ([',', '|', '\t', ';'] : List Char),
            countCharInValue c d ≤ countCharInValue c' d) ∧
          (∀ c' ∈ ([',', '|', '\t', ';'] : List Char).takeWhile (fun x => x ≠ c),
            countCharInValue c d < countCharInValue c' d))) := by
  refine ⟨fun h => by simp [select_best_delimiter, h], fun d hd => ⟨?_, ?_⟩⟩
  · intro ht hc
    simp [select_best_delimiter, hd, ht, hc]
  · intro hfalse
    have hsel : select_best_delimiter data
        = [pyMinBy (fun c => countCharInValue c d) ['|', '\t', ';'] ','] := by
      rcases hfalse with hf | hf <;> simp [select_best_delimiter, hd, hf]
    by_cases h1 : countCharInValue '|' d < countCharInValue ',' d
    · by_cases h2 : countCharInValue '\t' d < countCharInValue '|' d
      · by_cases h3 : countCharInValue ';' d < countCharInValue '\t' d
        · refine ⟨';', by simp [hsel, pyMinBy, h1, h2, h3], by simp, ?_, ?_⟩
          · intro c' hc'; fin_cases hc' <;> omega
          · intro c' hc'; fin_cases hc' <;> omega
        · refine ⟨'\t', by simp [hsel, pyMinBy, h1, h2, h3], by simp, ?_, ?_⟩
          · intro c' hc'; fin_cases hc' <;> omega
          · intro c' hc'; fin_cases hc' <;> omega
      · by_cases h3 : countCharInValue ';' d < countCharInValue '|' d
        · refine ⟨';', by simp [hsel, pyMinBy, h1, h2, h3], by simp, ?_, ?_⟩
          · intro c' hc'; fin_cases hc' <;> omega
          · intro c' hc'; fin_cases hc' <;> omega
        · refine ⟨'|', by simp [hsel, pyMinBy, h1, h2, h3], by simp, ?_, ?_⟩
          · intro c' hc'; fin_cases hc' <;> omega
          · intro c' hc'; fin_cases hc' <;> omega
    · by_cases h2 : countCharInValue '\t' d < countCharInValue ',' d
      · by_cases h3 : countCharInValue ';' d < countCharInValue '\t' d
        · refine ⟨';', by simp [hsel, pyMinBy, h1, h2, h3], by simp, ?_, ?_⟩
          · intro c' hc'; fin_cases hc' <;> omega
          · intro c' hc'; fin_cases hc' <;> omega
        · refine ⟨'\t', by simp [hsel, pyMinBy, h1, h2, h3], by simp, ?_, ?_⟩
          · intro c' hc'; fin_cases hc' <;> omega
          · intro c' hc'; fin_cases hc' <;> omega
      · by_cases h3 : countCharInValue ';' d < countCharInValue ',' d
        · refine ⟨';', by simp [hsel, pyMinBy, h1, h2, h3], by simp, ?_, ?_⟩
          · intro c' hc'; fin_cases hc' <;> omega
          · intro c' hc'; fin_cases hc' <;> omega
        · refine ⟨',', by simp [hsel, pyMinBy, h1, h2, h3], by simp, ?_, ?_⟩
          · intro c' hc'; fin_cases hc' <;> omega
          · intro c' hc'; fin_cases hc' <;> omega

/-- Witness for C5: the fewest-occurrences branch discharged on a
one-string list containing a comma. -/
theorem C5_delimiter_selection_witness :
    ∃ c, select_best_delimiter (Value.list [Value.str "a,b".data]) = [c] ∧
      c ∈ ([',', '|', '\t', ';'] : List Char) ∧
      (∀ c' ∈ ([',', '|', '\t', ';'] : List Char),
        countCharInValue c (Value.list [Value.str "a,b".data])
          ≤ countCharInValue c' (Value.list [Value.str "a,b".data])) ∧
      (∀ c' ∈ ([',', '|', '\t', ';'] : List Char).takeWhile (fun x => x ≠ c),
        countCharInValue c (Value.list [Value.str "a,b".data])
          < countCharInValue c' (Value.list [Value.str "a,b".data])) :=
  ((C5_delimiter_selection (Value.list [Value.str "a,b".data])).2
    (Value.list [Value.str "a,b".data]) rfl).2 (Or.inl rfl)

/-! String lemmas shared by the decode-level claims -/

theorem pyLstrip_cons {c : Char} (t : Str) (h : isPyWs c = false) :
    pyLstrip (c :: t) = c :: t := by
  simp [pyLstrip, List.dropWhile_cons, h]

theorem pyRstrip_eq_self {s : Str} {c : Char} (h : s.getLast? = some c)
    (hc : isPyWs c = false) : pyRstrip s = s := by
  have h1 : s.reverse.head? = some c := by rw [List.head?_reverse]; exact h
  obtain ⟨t, ht⟩ : ∃ t, s.reverse = c :: t := by
    cases hr : s.reverse with
    | nil => rw [hr] at h1; simp at h1
    | cons a t =>
      rw [hr] at h1
      simp at h1
      exact ⟨t, by rw [h1]⟩
  rw [pyRstrip, ht, List.dropWhile_cons, if_neg (by simp [hc])]
  rw [← ht, List.reverse_reverse]

theorem pyStrip_eq_self {s : Str} {a b : Char} (hh : s.head? = some a)
    (ha : isPyWs a = false) (hl : s.getLast? = some b) (hb : isPyWs b = false) :
    pyStrip s = s := by
  obtain ⟨t, rfl⟩ : ∃ t, s = a :: t := by
    cases s with
    | nil => simp at hh
    | cons x t => simp at hh; exact ⟨t, by rw [hh]⟩
  rw [pyStrip, pyLstrip_cons t ha]
  exact pyRstrip_eq_self hl hb

theorem splitlinesAux_append (a d acc : Str) (ha : ∀ c ∈ a, c ≠ '\n' ∧ c ≠ '\r') :
    splitlinesAux (a ++ '\n' :: d) acc = (acc.reverse ++ a) :: splitlinesAux d [] := by
  induction a generalizing acc with
  | nil => simp [splitlinesAux]
  | cons c t ih =>
    have hc := ha c (by simp)
    have step : splitlinesAux (c :: (t ++ '\n' :: d)) acc
        = splitlinesAux (t ++ '\n' :: d) (c :: acc) := by
      simp [splitlinesAux, hc.1, hc.2]
    rw [List.cons_append, step, ih (c :: acc) (fun x hx => ha x (List.mem_cons_of_mem c hx))]
    simp

theorem pySplitlines_append (a d : Str) (ha : ∀ c ∈ a, c ≠ '\n' ∧ c ≠ '\r') :
    pySplitlines (a ++ '\n' :: d) = a :: pySplitlines d := by
  rw [pySplitlines, splitlinesAux_append a d [] ha]
  simp [pySplitlines]

theorem splitlinesAux_no_newline (a acc : Str) (ha : ∀ c ∈ a, c ≠ '\n' ∧ c ≠ '\r') :
    splitlinesAux a acc
      = if a = [] ∧ acc = [] then [] else [acc.reverse ++ a] := by
  induction a generalizing acc with
  | nil =>
    cases acc <;> simp [splitlinesAux]
  | cons c t ih =>
    have hc := ha c (by simp)
    have step : splitlinesAux (c :: t) acc = splitlinesAux t (c :: acc) := by
      simp [splitlinesAux, hc.1, hc.2]
    rw [step, ih (c :: acc) (fun x hx => ha x (List.mem_cons_of_mem c hx))]
    simp

theorem pySplitlines_single (a : Str) (hne : a ≠ [])
    (ha : ∀ c ∈ a, c ≠ '\n' ∧ c ≠ '\r') : pySplitlines a = [a] := by
  rw [pySplitlines, splitlinesAux_no_newline a [] ha]
  simp [hne]

theorem pySplitWsAux_nonws (v cur : Str) (hv : ∀ c ∈ v, isPyWs c = false) :
    pySplitWsAux v cur = if v = [] ∧ cur = [] then [] else [cur.reverse ++ v] := by
  induction v generalizing cur with
  | nil =>
    cases cur <;> simp [pySplitWsAux]
  | cons c t ih =>
    have hc := hv c (by simp)
    rw [show pySplitWsAux (c :: t) cur = pySplitWsAux t (c :: cur) by
      simp [pySplitWsAux, hc]]
    rw [ih (c :: cur) (fun x hx => hv x (List.mem_cons_of_mem c hx))]
    simp

theorem pySplitWs_version (v : Str) (hne : v ≠ []) (hv : ∀ c ∈ v, isPyWs c = false) :
    pySplitWs ("#version ".data ++ v) = ["#version".data, v] := by
  have hlit : "#version ".data = ['#', 'v', 'e', 'r', 's', 'i', 'o', 'n', ' '] := rfl
  rw [hlit]
  show pySplitWsAux (['#', 'v', 'e', 'r', 's', 'i', 'o', 'n', ' '] ++ v) [] = _
  rw [show (['#', 'v', 'e', 'r', 's', 'i', 'o', 'n', ' '] ++ v : Str)
      = '#' :: 'v' :: 'e' :: 'r' :: 's' :: 'i' :: 'o' :: 'n' :: ' ' :: v from rfl]
  simp only [pySplitWsAux, isPyWs]
  norm_num
  rw [pySplitWsAux_nonws v [] hv]
  simp [hne]

theorem isPrefixOf_append_self (l m : List Char) : l.isPrefixOf (l ++ m) = true := by
  induction l with
  | nil => simp [List.isPrefixOf]
  | cons a t ih => simp [List.isPrefixOf, ih]

/-! Claim C7 -/

theorem parseHeaders_version_ok (ls : List Str) (delim : Str) :
    parseHeadersAux ("#version 1.0".data :: ls) delim = parseHeadersAux ls delim := rfl

theorem parseHeaders_version_bad (v : Str) (ls : List Str) (delim : Str)
    (hne : v ≠ []) (hv : ∀ c ∈ v, isPyWs c = false) (hbad : v ≠ "1.0".data) :
    parseHeadersAux (("#version ".data ++ v) :: ls) delim
      = .error (.unsupportedVersion ("#version ".data ++ v)) := by
  obtain ⟨cl, hcl⟩ : ∃ cl, v.getLast? = some cl := by
    cases hv2 : v.getLast? with
    | some c => exact ⟨c, rfl⟩
    | none => exact absurd (List.getLast?_eq_none_iff.mp hv2) hne
  have hclmem : cl ∈ v := List.mem_of_mem_getLast? (by rw [hcl]; exact rfl)
  have hstrip : pyStrip ("#version ".data ++ v) = "#version ".data ++ v := by
    refine pyStrip_eq_self (a := '#') (b := cl) rfl rfl ?_ (hv cl hclmem)
    rw [List.getLast?_append_of_ne_nil _ hne]
    exact hcl
  have hsplit := pySplitWs_version v hne hv
  have hbad' : v ≠ ['1', '.', '0'] := hbad
  have hpre' : ("#version".data : Str) <+: '#' :: 'v' :: 'e' :: 'r' :: 's' :: 'i' :: 'o' :: 'n' :: ' ' :: v := by
    rw [show ('#' :: 'v' :: 'e' :: 'r' :: 's' :: 'i' :: 'o' :: 'n' :: ' ' :: v : Str)
        = "#version".data ++ (' ' :: v) from rfl]
    exact List.prefix_append _ _
  have hA : ("#version ".data ++ v : Str)
      = '#' :: 'v' :: 'e' :: 'r' :: 's' :: 'i' :: 'o' :: 'n' :: ' ' :: v := rfl
  rw [hA] at hstrip hsplit ⊢
  simp [parseHeadersAux, hstrip, hpre', hsplit, hbad']

/-- C7: a version header line whose token differs from 1.0 makes decoding
fail with the unsupported-version error carrying that line, and prepending
the version line of 1.0 to any document never changes (in particular never
fails) its decoding. -/
theorem C7_version_enforcement (opts : DecodeOptions) (v d : Str)
    (hne : v ≠ []) (hv : ∀ c ∈ v, isPyWs c = false) :
    (v ≠ "1.0".data →
      decode opts (("#version ".data ++ v) ++ '\n' :: d)
        = .error (.unsupportedVersion ("#version ".data ++ v))) ∧
    decode opts ("#version 1.0".data ++ '\n' :: d) = decode opts d := by
  constructor
  · intro hbad
    have hnl : ∀ c ∈ ("#version ".data ++ v), c ≠ '\n' ∧ c ≠ '\r' := by
      intro c hc
      rcases List.mem_append.mp hc with h | h
      · fin_cases h <;> exact ⟨by decide, by decide⟩
      · have hw := hv c h
        constructor <;> (rintro rfl; simp [isPyWs] at hw)
    rw [decode, decodeTop]
    rw [pySplitlines_append _ _ hnl, parseHeaders_version_bad v _ _ hne hv hbad]
    rfl
  · have hnl : ∀ c ∈ ("#version 1.0".data : Str), c ≠ '\n' ∧ c ≠ '\r' := by
      intro c hc
      fin_cases hc <;> exact ⟨by decide, by decide⟩
    rw [decode, decode, decodeTop, decodeTop]
    rw [pySplitlines_append _ _ hnl, parseHeaders_version_ok]

/-- Witness for C7 at version token 2.0 and a one-line document. -/
theorem C7_version_enforcement_witness :
    decode defaultDecodeOptions (("#version ".data ++ "2.0".data) ++ '\n' :: "x: 1".data)
      = .error (.unsupportedVersion ("#version ".data ++ "2.0".data)) ∧
    decode defaultDecodeOptions ("#version 1.0".data ++ '\n' :: "x: 1".data)
      = decode defaultDecodeOptions "x: 1".data :=
  ⟨(C7_version_enforcement defaultDecodeOptions "2.0".data "x: 1".data
      (by decide) (by decide)).1 (by decide),
   (C7_version_enforcement defaultDecodeOptions "2.0".data "x: 1".data
      (by decide) (by decide)).2⟩

/-! Token lemmas: characters that are inert for stripping and splitting -/

/-- Characters that the comma splitter copies verbatim and that stripping
never touches. -/
def safeChar (c : Char) : Prop :=
  c ≠ '"' ∧ c ≠ '\\' ∧ c ≠ ',' ∧ isPyWs c = false

instance (c : Char) : Decidable (safeChar c) := by
  unfold safeChar
  infer_instance

theorem dropWhile_eq_self_of_all (p : Char → Bool) (l : Str)
    (h : ∀ c ∈ l, p c = false) : l.dropWhile p = l := by
  cases l with
  | nil => rfl
  | cons c t => simp [List.dropWhile_cons, h c (by simp)]

theorem pyStrip_nonws (u : Str) (h : ∀ c ∈ u, isPyWs c = false) : pyStrip u = u := by
  have h1 : pyLstrip u = u := dropWhile_eq_self_of_all _ u h
  have h2 : pyRstrip u = u := by
    rw [pyRstrip, dropWhile_eq_self_of_all _ u.reverse
      (fun c hc => h c (List.mem_reverse.mp hc))]
    exact List.reverse_reverse u
  rw [pyStrip, h1, h2]

theorem pyLstrip_space (u : Str) : pyLstrip (' ' :: u) = pyLstrip u := by
  simp [pyLstrip, List.dropWhile_cons, isPyWs]

theorem pyStrip_space (u : Str) : pyStrip (' ' :: u) = pyStrip u := by
  rw [pyStrip, pyStrip, pyLstrip_space]

/-! Splitting a comma-joined line of safe tokens -/

theorem splitFields_step (t s cur : Str) (acc : List Str)
    (ht : ∀ c ∈ t, safeChar c) (hs : s ≠ []) :
    splitFields [','] (t ++ s) .plain cur acc = splitFields [','] s .plain (cur ++ t) acc := by
  induction t generalizing cur with
  | nil => simp
  | cons c t' ih =>
    obtain ⟨hq, hb, hcomma, _hw⟩ := ht c (by simp)
    obtain ⟨x, y, hxy⟩ : ∃ x y, t' ++ s = x :: y := by
      cases hts : t' ++ s with
      | nil => exact absurd (List.append_eq_nil.mp hts).2 hs
      | cons x y => exact ⟨x, y, rfl⟩
    rw [List.cons_append, hxy]
    have step : splitFields [','] (c :: x :: y) .plain cur acc
        = splitFields [','] (x :: y) .plain (cur ++ [c]) acc := by
      simp [splitFields, hq, hb, hcomma]
    rw [step, ← hxy, ih (cur ++ [c]) (fun d hd => ht d (by simp [hd]))]
    simp

theorem splitFields_last (t cur : Str) (acc : List Str) (ht : ∀ c ∈ t, safeChar c) :
    splitFields [','] t .plain cur acc = acc ++ [pyStrip (cur ++ t)] := by
  induction t generalizing cur with
  | nil => simp [splitFields]
  | cons c t' ih =>
    obtain ⟨hq, hb, hcomma, _hw⟩ := ht c (by simp)
    cases t' with
    | nil =>
      have : splitFields [','] [c] .plain cur acc = acc ++ [pyStrip (cur ++ [c])] := by
        simp [splitFields, hq, hb, hcomma]
      simpa using this
    | cons x y =>
      have step : splitFields [','] (c :: x :: y) .plain cur acc
          = splitFields [','] (x :: y) .plain (cur ++ [c]) acc := by
        simp [splitFields, hq, hb, hcomma]
      rw [step, ih (cur ++ [c]) (fun d hd => ht d (by simp [hd]))]
      simp

/-- Tail of a comma-space join. -/
def joinTail : List Str → Str
  | [] => []
  | t :: ts => ',' :: ' ' :: (t ++ joinTail ts)

theorem intercalate_comma_join (t : Str) (ts : List Str) :
    List.intercalate [',', ' '] (t :: ts) = t ++ joinTail ts := by
  induction ts generalizing t with
  | nil => simp [List.intercalate, joinTail]
  | cons u ts' ih =>
    rw [joinTail, show List.intercalate [',', ' '] (t :: u :: ts')
        = t ++ [',', ' '] ++ List.intercalate [',', ' '] (u :: ts') by
      simp [List.intercalate, List.intersperse]]
    rw [ih u]
    simp

theorem splitFields_join (ts : List Str) (t cur : Str) (acc : List Str)
    (ht : ∀ c ∈ t, safeChar c)
    (hts : ∀ u ∈ ts, u ≠ [] ∧ ∀ c ∈ u, safeChar c) :
    splitFields [','] (t ++ joinTail ts) .plain cur acc
      = acc ++ pyStrip (cur ++ t) :: ts := by
  induction ts generalizing t cur acc with
  | nil =>
    rw [joinTail, List.append_nil, splitFields_last t cur acc ht]
  | cons u ts' ih =>
    obtain ⟨hu_ne, hu_safe⟩ := hts u (by simp)
    rw [joinTail, splitFields_step t (',' :: ' ' :: (u ++ joinTail ts')) cur acc ht
      (by simp)]
    have hcomma : splitFields [','] (',' :: ' ' :: (u ++ joinTail ts')) .plain (cur ++ t) acc
        = splitFields [','] (' ' :: (u ++ joinTail ts')) .plain []
            (acc ++ [pyStrip (cur ++ t)]) := by
      simp [splitFields]
    obtain ⟨x, y, hxy⟩ : ∃ x y, u ++ joinTail ts' = x :: y := by
      cases hts' : u ++ joinTail ts' with
      | nil => exact absurd (List.append_eq_nil.mp hts').1 hu_ne
      | cons x y => exact ⟨x, y, rfl⟩
    have hspace : splitFields [','] (' ' :: (u ++ joinTail ts')) .plain []
          (acc ++ [pyStrip (cur ++ t)])
        = splitFields [','] (u ++ joinTail ts') .plain [' ']
            (acc ++ [pyStrip (cur ++ t)]) := by
      rw [hxy]
      simp [splitFields]
    rw [hcomma, hspace, ih u [' '] (acc ++ [pyStrip (cur ++ t)]) hu_safe
      (fun w hw => hts w (by simp [hw]))]
    have hstrip_u : pyStrip ([' '] ++ u) = u := by
      rw [show ([' '] ++ u : Str) = ' ' :: u from rfl, pyStrip_space]
      exact pyStrip_nonws u (fun c hc => (hu_safe c hc).2.2.2)
    rw [hstrip_u]
    simp

/-- Comma splitting of a join of safe tokens recovers exactly the tokens. -/
theorem split_line_comma_join (t : Str) (ts : List Str)
    (ht : t ≠ [] ∧ ∀ c ∈ t, safeChar c)
    (hts : ∀ u ∈ ts, u ≠ [] ∧ ∀ c ∈ u, safeChar c) :
    split_line_by_delimiter (List.intercalate [',', ' '] (t :: ts)) [','] = t :: ts := by
  rw [split_line_by_delimiter, intercalate_comma_join,
    splitFields_join ts t [] [] ht.2 hts]
  simp [pyStrip_nonws t (fun c hc => (ht.2 c hc).2.2.2)]

/-! Claim C3 -/

/-- Stepping lemma for the tabular row loop: a row whose coercion fails
propagates the error. -/
theorem parseTabularRows_row_err (opts : DecodeOptions) (delim : Str) (lines : List Str)
    (hdr : HeaderInfo) (fli fuel consumed : Nat) (acc : List Value)
    (line e : _)
    (hlt : consumed < lines.length)
    (hline : lines.getD consumed [] = line)
    (hne : (pyStrip line).isEmpty = false)
    (hind : ¬ indentOf line ≤ fli)
    (herr : parseRowCols opts.strict hdr.type_hints
        (split_line_by_delimiter (pyStrip line) delim) hdr.columns 0 [] = .error e) :
    parseTabularRows opts delim lines hdr fli (fuel + 1) consumed acc = .error e := by
  simp only [parseTabularRows, hline]
  rw [if_pos hlt]
  simp only [hne, hind, Bool.not_false, decide_False, Bool.and_false, Bool.true_and,
    Bool.false_eq_true, if_false, herr]

/-- Evaluation of the decoder top loop on a u32-hinted tabular header followed
by one data row whose single token fails strict coercion. -/
theorem decodeTopLoop_c3row (row token : Str)
    (hstripRow : pyStrip row = token)
    (htokne : token.isEmpty = false)
    (hindent : indentOf row = 2)
    (hsplitRow : split_line_by_delimiter token [','] = [token])
    (hcoerce : coerce_typed_value token "u32".data true
      = .error (.coercionFailure token "u32".data)) :
    decodeTopLoop ⟨true, true⟩ [','] 16
        ["items[1]\x7ba:u32\x7d:".data, row] 0 (.obj [])
      = .error (.coercionFailure token "u32".data) := by
  have H1 : parseRowCols true [("a".data, "u32".data)] [token] ["a".data] 0 []
      = .error (.coercionFailure token "u32".data) := by
    simp only [parseRowCols, List.length_cons, List.length_nil, Nat.reduceAdd, Nat.zero_lt_one,
      if_true, List.getD_cons_zero, List.find?, decide_True, List.isEmpty_cons, Bool.not_false,
      Bool.and_true, Bool.true_and, hcoerce, reduceIte]
  have H2 : parseTabularRows ⟨true, true⟩ [',']
      ["items[1]\x7ba:u32\x7d:".data, row]
      ⟨"items".data, true, some 1, ["a".data], [("a".data, "u32".data)], []⟩ 0 13 1 []
      = .error (.coercionFailure token "u32".data) := by
    refine parseTabularRows_row_err _ _ _ _ _ 12 _ _ row _ ?_ rfl ?_ ?_ ?_
    · exact Nat.one_lt_two
    · rw [hstripRow]; exact htokne
    · rw [hindent]; omega
    · rw [hstripRow, hsplitRow]; exact H1
  have H3 : _parse_block ⟨true, true⟩ [','] 14
      ["items[1]\x7ba:u32\x7d:".data, row]
      ⟨"items".data, true, some 1, ["a".data], [("a".data, "u32".data)], []⟩
      = .error (.coercionFailure token "u32".data) := by
    rw [show (14 : Nat) = 13 + 1 from rfl, _parse_block]
    rw [show indentOf (List.headD ["items[1]\x7ba:u32\x7d:".data, row] []) = 0 from rfl]
    simp only [List.headD, ne_eq, not_true_eq_false, not_false_eq_true,
      reduceCtorEq, if_false, if_true, reduceIte, H2]
  have H4 : _parse_lines ⟨true, true⟩ [','] 15
      ["items[1]\x7ba:u32\x7d:".data, row] 0
      = .error (.coercionFailure token "u32".data) := by
    rw [show (15 : Nat) = 14 + 1 from rfl, _parse_lines]
    rw [show pyStrip "items[1]\x7ba:u32\x7d:".data = "items[1]\x7ba:u32\x7d:".data from rfl]
    rw [show _parse_header "items[1]\x7ba:u32\x7d:".data
      = some ⟨"items".data, true, some 1, ["a".data], [("a".data, "u32".data)], []⟩ from rfl]
    simp only [H3]
  rw [show (16 : Nat) = 15 + 1 from rfl, decodeTopLoop]
  simp only [List.length_cons, List.length_nil, Nat.reduceAdd, Nat.reduceLT, if_true,
    List.getD_cons_zero, List.drop_zero]
  rw [show List.isEmpty (pyStrip "items[1]\x7ba:u32\x7d:".data) = false from rfl]
  simp only [Bool.false_eq_true, if_false, H4]

set_option maxHeartbeats 0 in
/-- C3: in strict mode with a u32-hinted column, any row token made of plain
characters with a non-numeric head fails coercion and decode reports the
coercion error to the caller; a numeric token is coerced to the hinted
integer type; and the modelled coerce_typed_value rejects a concrete
non-numeric token. -/
theorem C3_strict_type_hint_enforcement (raw : Str) (hr : ∀ c ∈ raw, safeChar c) :
    decode ⟨true, true⟩
        ("#version 1.0".data ++ '\n' :: ("items[1]\x7ba:u32\x7d:".data ++ '\n'
          :: (' ' :: ' ' :: 'x' :: raw)))
      = .error (.coercionFailure ('x' :: raw) "u32".data) ∧
    decode ⟨true, true⟩ "#version 1.0\nitems[1]\x7ba:u32\x7d:\n  7".data
      = .ok (.obj [("items".data, .list [.obj [("a".data, .int 7)]])]) ∧
    coerce_typed_value "abc".data "u32".data true
      = .error (.coercionFailure "abc".data "u32".data) := by
  have hconc : decode ⟨true, true⟩ "#version 1.0\nitems[1]\x7ba:u32\x7d:\n  7".data
      = .ok (.obj [("items".data, .list [.obj [("a".data, .int 7)]])]) := by
    rfl
  refine ⟨?_, hconc, by rfl⟩
  have htok : ∀ c ∈ ('x' :: raw), safeChar c := by
    intro c hc
    rcases List.mem_cons.mp hc with rfl | hc
    · exact ⟨by decide, by decide, by decide, by decide⟩
    · exact hr c hc
  have hstripRow : pyStrip (' ' :: ' ' :: 'x' :: raw) = 'x' :: raw := by
    rw [pyStrip_space, pyStrip_space]
    exact pyStrip_nonws _ (fun c hc => (htok c hc).2.2.2)
  have hsl : pySplitlines
      ("#version 1.0".data ++ '\n' :: ("items[1]\x7ba:u32\x7d:".data ++ '\n'
        :: (' ' :: ' ' :: 'x' :: raw)))
      = ["#version 1.0".data, "items[1]\x7ba:u32\x7d:".data, ' ' :: ' ' :: 'x' :: raw] := by
    rw [pySplitlines_append "#version 1.0".data _ (by decide)]
    rw [pySplitlines_append "items[1]\x7ba:u32\x7d:".data _ (by decide)]
    rw [pySplitlines_single _ (by simp) (by
      intro c hc
      rcases List.mem_cons.mp hc with rfl | hc
      · exact ⟨by decide, by decide⟩
      rcases List.mem_cons.mp hc with rfl | hc
      · exact ⟨by decide, by decide⟩
      have hw := (htok c hc).2.2.2
      constructor <;> (rintro rfl; simp [isPyWs] at hw))]
  have hindent : indentOf (' ' :: ' ' :: 'x' :: raw) = 2 := by
    have hx : pyLstrip ('x' :: raw) = 'x' :: raw := pyLstrip_cons raw (by decide)
    rw [indentOf, pyLstrip_space, pyLstrip_space, hx]
    simp [List.length_cons]
  have hsplitRow : split_line_by_delimiter ('x' :: raw) [','] = ['x' :: raw] := by
    have h := split_line_comma_join ('x' :: raw) [] ⟨by simp, htok⟩ (by simp)
    rw [show List.intercalate [',', ' '] [('x' :: raw)] = 'x' :: raw by
      simp [List.intercalate, List.intersperse]] at h
    exact h
  have hnum : is_number ('x' :: raw) = false := rfl
  have hcoerce : coerce_typed_value ('x' :: raw) "u32".data true
      = .error (.coercionFailure ('x' :: raw) "u32".data) := by
    simp [coerce_typed_value, pyStrip_nonws ('x' :: raw) (fun c hc => (htok c hc).2.2.2), hnum]
  have hrow : parseRowCols true [("a".data, "u32".data)] ['x' :: raw] ["a".data] 0 []
      = .error (.coercionFailure ('x' :: raw) "u32".data) := by
    simp [parseRowCols, hcoerce]
  rw [decode, decodeTop, hsl]
  rw [show parseHeadersAux
      ["#version 1.0".data, "items[1]\x7ba:u32\x7d:".data, ' ' :: ' ' :: 'x' :: raw] [',']
      = .ok (["items[1]\x7ba:u32\x7d:".data, ' ' :: ' ' :: 'x' :: raw], [',']) from rfl]
  simp only [List.isEmpty_cons, Bool.false_eq_true, if_false, decodeFuel, List.length_cons,
    List.length_nil, Nat.reduceAdd, Nat.reduceMul]
  rw [decodeTopLoop_c3row (' ' :: ' ' :: 'x' :: raw) ('x' :: raw)
    hstripRow rfl hindent hsplitRow hcoerce]
  rfl

/-- Witness for C3 at the row token abc. -/
theorem C3_strict_type_hint_enforcement_witness :
    (∀ c ∈ ("bc".data : Str), safeChar c) ∧
    (decode ⟨true, true⟩
        ("#version 1.0".data ++ '\n' :: ("items[1]\x7ba:u32\x7d:".data ++ '\n'
          :: (' ' :: ' ' :: 'x' :: "bc".data)))
      = .error (.coercionFailure ('x' :: "bc".data) "u32".data) ∧
     decode ⟨true, true⟩ "#version 1.0\nitems[1]\x7ba:u32\x7d:\n  7".data
       = .ok (.obj [("items".data, .list [.obj [("a".data, .int 7)]])]) ∧
     coerce_typed_value "abc".data "u32".data true
       = .error (.coercionFailure "abc".data "u32".data)) :=
  ⟨by decide, C3_strict_type_hint_enforcement "bc".data (by decide)⟩

/-! Claim C2 -/

theorem pyReplaceAux_fuelEq (pat rep : Str) :
    ∀ n fuel s, s.length ≤ fuel → fuel ≤ n →
      pyReplaceAux pat rep fuel s = pyReplace pat rep s := by
  intro n
  induction n with
  | zero =>
    intro fuel s hs hf
    have hf0 : fuel = 0 := Nat.le_zero.mp hf
    subst hf0
    have : s = [] := List.length_eq_zero.mp (Nat.le_zero.mp hs)
    subst this
    rfl
  | succ m ih =>
    intro fuel s hs hf
    cases fuel with
    | zero =>
      have : s = [] := List.length_eq_zero.mp (Nat.le_zero.mp hs)
      subst this
      rfl
    | succ f =>
      cases s with
      | nil => rfl
      | cons c rest =>
        have hs' : rest.length + 1 ≤ f + 1 := by simpa using hs
        rw [pyReplace, show (c :: rest : Str).length = rest.length + 1 from rfl]
        rw [pyReplaceAux, pyReplaceAux]
        by_cases hg : pat ≠ [] ∧ pat.isPrefixOf (c :: rest) = true
        · rw [if_pos hg, if_pos hg]
          have hpat : 1 ≤ pat.length := by
            cases hp : pat with
            | nil => exact absurd hp hg.1
            | cons p ps => simp
          have hd : ((c :: rest).drop pat.length).length ≤ rest.length := by
            rw [List.length_drop]
            simp only [List.length_cons]
            omega
          rw [ih f ((c :: rest).drop pat.length) (le_trans hd (by omega)) (by omega)]
          rw [ih rest.length ((c :: rest).drop pat.length) hd (by omega)]
        · rw [if_neg hg, if_neg hg]
          rw [ih f rest (by omega) (by omega)]
          rw [show pyReplaceAux pat rep rest.length rest = pyReplace pat rep rest from rfl]

theorem pyReplace_fuel (pat rep : Str) (fuel : Nat) (s : Str) (h : s.length ≤ fuel) :
    pyReplaceAux pat rep fuel s = pyReplace pat rep s :=
  pyReplaceAux_fuelEq pat rep fuel fuel s h le_rfl

theorem pyReplace_pos (pat rep u : Str) (hp : pat ≠ []) :
    pyReplace pat rep (pat ++ u) = rep ++ pyReplace pat rep u := by
  obtain ⟨p, ps, rfl⟩ : ∃ p ps, pat = p :: ps := by
    cases hp2 : pat with
    | nil => exact absurd hp2 hp
    | cons p ps => exact ⟨p, ps, rfl⟩
  rw [pyReplace, show ((p :: ps) ++ u : Str) = p :: (ps ++ u) from rfl,
    show (p :: (ps ++ u) : Str).length = (ps ++ u).length + 1 from rfl, pyReplaceAux]
  rw [if_pos ⟨hp, by
    rw [show (p :: (ps ++ u) : Str) = (p :: ps) ++ u from rfl]
    exact isPrefixOf_append_self (p :: ps) u⟩]
  rw [show ((p :: (ps ++ u) : Str).drop (p :: ps).length) = u by
    rw [show (p :: (ps ++ u) : Str) = (p :: ps) ++ u from rfl]
    exact List.drop_left (p :: ps) u]
  rw [pyReplace_fuel _ _ _ _ (by simp)]

theorem pyReplace_neg (pat rep : Str) (c : Char) (rest : Str)
    (h : pat.isPrefixOf (c :: rest) = false) :
    pyReplace pat rep (c :: rest) = c :: pyReplace pat rep rest := by
  rw [pyReplace, show (c :: rest : Str).length = rest.length + 1 from rfl, pyReplaceAux]
  rw [if_neg (by simp [h])]
  rw [show pyReplaceAux pat rep rest.length rest = pyReplace pat rep rest from rfl]

theorem pyReplace_eq_nil {pat rep s : Str} (hrep : rep ≠ [])
    (h : pyReplace pat rep s = []) : s = [] := by
  cases s with
  | nil => rfl
  | cons c rest =>
    by_cases hpre : pat ≠ [] ∧ pat.isPrefixOf (c :: rest) = true
    · obtain ⟨u, hu⟩ : ∃ u, (c :: rest : Str) = pat ++ u := by
        obtain ⟨u, hu⟩ := List.isPrefixOf_iff_prefix.mp hpre.2
        exact ⟨u, hu.symm⟩
      rw [hu, pyReplace_pos pat rep u hpre.1] at h
      exact absurd (List.append_eq_nil.mp h).1 hrep
    · rw [pyReplace, show (c :: rest : Str).length = rest.length + 1 from rfl,
        pyReplaceAux, if_neg hpre] at h
      simp at h

theorem pyReplace_double_cancel (a : Char) (t : Str) :
    pyReplace [a, a] [a] (pyReplace [a] [a, a] t) = t := by
  induction t with
  | nil => rfl
  | cons c rest ih =>
    by_cases hc : c = a
    · subst hc
      rw [show (c :: rest : Str) = [c] ++ rest from rfl,
        pyReplace_pos [c] [c, c] rest (by simp)]
      rw [pyReplace_pos [c, c] [c] (pyReplace [c] [c, c] rest) (by simp)]
      rw [ih]
    · rw [pyReplace_neg [a] [a, a] c rest (by
        simp [List.isPrefixOf]
        exact Ne.symm hc)]
      rw [pyReplace_neg [a, a] [a] c (pyReplace [a] [a, a] rest) (by
        simp [List.isPrefixOf]
        exact fun h => absurd h.symm hc)]
      rw [ih]

/-- The escaping pass of quote_string keeps a non-quote head character. -/
theorem quoteEsc_head (s : Str) (c : Char) (rest : Str) (hs : s = c :: rest)
    (hq : c ≠ '"') :
    ∃ d w, pyReplace ['"'] ['"', '"'] (pyReplace ['\\'] ['\\', '\\'] s) = d :: w ∧
      d ≠ '"' := by
  subst hs
  by_cases hb : c = '\\'
  · subst hb
    rw [show ('\\' :: rest : Str) = ['\\'] ++ rest from rfl,
      pyReplace_pos ['\\'] ['\\', '\\'] rest (by simp)]
    rw [show (['\\', '\\'] ++ pyReplace ['\\'] ['\\', '\\'] rest : Str)
        = '\\' :: ('\\' :: pyReplace ['\\'] ['\\', '\\'] rest) from rfl]
    rw [pyReplace_neg ['"'] ['"', '"'] '\\' _ (by simp [List.isPrefixOf])]
    exact ⟨'\\', _, rfl, by decide⟩
  · rw [pyReplace_neg ['\\'] ['\\', '\\'] c rest (by
      simp [List.isPrefixOf]
      exact fun h => absurd h.symm hb)]
    rw [pyReplace_neg ['"'] ['"', '"'] c _ (by
      simp [List.isPrefixOf]
      exact fun h => absurd h.symm hq)]
    exact ⟨c, _, rfl, hq⟩

/-- Backslash doubling cannot create a final double quote. -/
theorem bs_last (t : Str)
    (h : (pyReplace ['\\'] ['\\', '\\'] t).getLast? = some '"') :
    t.getLast? = some '"' := by
  induction t with
  | nil => simp [pyReplace, pyReplaceAux] at h
  | cons c rest ih =>
    by_cases hb : c = '\\'
    · subst hb
      rw [show ('\\' :: rest : Str) = ['\\'] ++ rest from rfl,
        pyReplace_pos ['\\'] ['\\', '\\'] rest (by simp)] at h
      by_cases hr : pyReplace ['\\'] ['\\', '\\'] rest = []
      · rw [hr] at h
        simp at h
      · rw [List.getLast?_append_of_ne_nil _ hr] at h
        have hrl := ih h
        have hrne : rest ≠ [] := by rintro rfl; simp at hrl
        rw [show ('\\' :: rest : Str) = ['\\'] ++ rest from rfl,
          List.getLast?_append_of_ne_nil _ hrne]
        exact hrl
    · rw [pyReplace_neg ['\\'] ['\\', '\\'] c rest (by
        simp [List.isPrefixOf]
        exact fun h2 => absurd h2.symm hb)] at h
      by_cases hr : pyReplace ['\\'] ['\\', '\\'] rest = []
      · have hre : rest = [] := pyReplace_eq_nil (by simp) hr
        subst hre
        rw [hr] at h
        exact h
      · rw [show (c :: pyReplace ['\\'] ['\\', '\\'] rest : Str)
            = [c] ++ pyReplace ['\\'] ['\\', '\\'] rest from rfl,
          List.getLast?_append_of_ne_nil _ hr] at h
        have hrl := ih h
        have hrne : rest ≠ [] := by rintro rfl; simp at hrl
        rw [show (c :: rest : Str) = [c] ++ rest from rfl,
          List.getLast?_append_of_ne_nil _ hrne]
        exact hrl

/-- Quote doubling ends in a double quote only if the input did. -/
theorem dq_last (t : Str)
    (h : (pyReplace ['"'] ['"', '"'] t).getLast? = some '"') :
    t.getLast? = some '"' := by
  induction t with
  | nil => simp [pyReplace, pyReplaceAux] at h
  | cons c rest ih =>
    by_cases hb : c = '"'
    · subst hb
      by_cases hrne : rest = []
      · subst hrne
        rfl
      · rw [show ('"' :: rest : Str) = ['"'] ++ rest from rfl,
          List.getLast?_append_of_ne_nil _ hrne]
        rw [show ('"' :: rest : Str) = ['"'] ++ rest from rfl,
          pyReplace_pos ['"'] ['"', '"'] rest (by simp)] at h
        by_cases hr : pyReplace ['"'] ['"', '"'] rest = []
        · exact absurd (pyReplace_eq_nil (by simp) hr) hrne
        · rw [List.getLast?_append_of_ne_nil _ hr] at h
          exact ih h
    · rw [pyReplace_neg ['"'] ['"', '"'] c rest (by
        simp [List.isPrefixOf]
        exact fun h2 => absurd h2.symm hb)] at h
      by_cases hr : pyReplace ['"'] ['"', '"'] rest = []
      · have hre : rest = [] := pyReplace_eq_nil (by simp) hr
        subst hre
        rw [hr] at h
        exact h
      · rw [show (c :: pyReplace ['"'] ['"', '"'] rest : Str)
            = [c] ++ pyReplace ['"'] ['"', '"'] rest from rfl,
          List.getLast?_append_of_ne_nil _ hr] at h
        have hrl := ih h
        have hrne : rest ≠ [] := by rintro rfl; simp at hrl
        rw [show (c :: rest : Str) = [c] ++ rest from rfl,
          List.getLast?_append_of_ne_nil _ hrne]
        exact hrl

theorem triple_isPrefixOf_shape (t : Str) (h : tripleQuote.isPrefixOf t = true) :
    ∃ u, t = '"' :: '"' :: '"' :: u := by
  rcases t with _ | ⟨a, _ | ⟨b, _ | ⟨c, u⟩⟩⟩ <;>
    simp [tripleQuote, List.isPrefixOf] at h
  obtain ⟨rfl, rfl, rfl⟩ := h
  exact ⟨u, rfl⟩

/-- Escaping every triple quote leaves no triple quote at the front of the
result. -/
theorem tqesc_not_triple_prefix (t : Str) :
    tripleQuote.isPrefixOf (pyReplace tripleQuote ('\\' :: tripleQuote) t) = false := by
  rcases t with _ | ⟨c, u⟩
  · decide
  by_cases h1 : c = '"'
  case neg =>
    rw [pyReplace_neg tripleQuote ('\\' :: tripleQuote) c u
      (by simp [tripleQuote, List.isPrefixOf, Ne.symm h1])]
    simp [tripleQuote, List.isPrefixOf, Ne.symm h1]
  subst h1
  rcases u with _ | ⟨d, w⟩
  · decide
  by_cases h2 : d = '"'
  case neg =>
    rw [pyReplace_neg tripleQuote ('\\' :: tripleQuote) '"' (d :: w)
      (by simp [tripleQuote, List.isPrefixOf, Ne.symm h2])]
    rw [pyReplace_neg tripleQuote ('\\' :: tripleQuote) d w
      (by simp [tripleQuote, List.isPrefixOf, Ne.symm h2])]
    simp [tripleQuote, List.isPrefixOf, Ne.symm h2]
  subst h2
  rcases w with _ | ⟨e, x⟩
  · decide
  by_cases h3 : e = '"'
  case neg =>
    rw [pyReplace_neg tripleQuote ('\\' :: tripleQuote) '"' ('"' :: e :: x)
      (by simp [tripleQuote, List.isPrefixOf, Ne.symm h3])]
    rw [pyReplace_neg tripleQuote ('\\' :: tripleQuote) '"' (e :: x)
      (by simp [tripleQuote, List.isPrefixOf, Ne.symm h3])]
    rw [pyReplace_neg tripleQuote ('\\' :: tripleQuote) e x
      (by simp [tripleQuote, List.isPrefixOf, Ne.symm h3])]
    simp [tripleQuote, List.isPrefixOf, Ne.symm h3]
  subst h3
  rw [show ('"' :: '"' :: '"' :: x : Str) = tripleQuote ++ x from rfl,
    pyReplace_pos tripleQuote ('\\' :: tripleQuote) x (by decide)]
  simp [tripleQuote, List.isPrefixOf]

/-- Unescaping a triple-quote-escaped string recovers it (budgeted form). -/
theorem untq_tqesc_aux :
    ∀ n t, (t : Str).length ≤ n →
      pyReplace ('\\' :: tripleQuote) tripleQuote
          (pyReplace tripleQuote ('\\' :: tripleQuote) t) = t := by
  intro n
  induction n with
  | zero =>
    intro t ht
    have : t = [] := List.length_eq_zero.mp (Nat.le_zero.mp ht)
    subst this
    rfl
  | succ m ih =>
    intro t ht
    by_cases htp : tripleQuote.isPrefixOf t = true
    · obtain ⟨u, rfl⟩ := triple_isPrefixOf_shape t htp
      rw [show ('"' :: '"' :: '"' :: u : Str) = tripleQuote ++ u from rfl,
        pyReplace_pos tripleQuote ('\\' :: tripleQuote) u (by decide)]
      rw [pyReplace_pos ('\\' :: tripleQuote) tripleQuote _ (by decide)]
      rw [ih u (by simp at ht; omega)]
    · rcases t with _ | ⟨c, u⟩
      · rfl
      rw [pyReplace_neg tripleQuote ('\\' :: tripleQuote) c u
        (by simp only [Bool.not_eq_true] at htp; exact htp)]
      by_cases hb : c = '\\'
      · subst hb
        rw [pyReplace_neg ('\\' :: tripleQuote) tripleQuote '\\' _ (by
          have h3a := tqesc_not_triple_prefix u
          simp only [List.isPrefixOf, Bool.and_eq_false_iff]
          right
          simpa [tripleQuote] using h3a)]
        rw [ih u (by simp at ht; omega)]
      · rw [pyReplace_neg ('\\' :: tripleQuote) tripleQuote c _
          (by simp [List.isPrefixOf, Ne.symm hb])]
        rw [ih u (by simp at ht; omega)]

theorem untq_tqesc (t : Str) :
    pyReplace ('\\' :: tripleQuote) tripleQuote
      (pyReplace tripleQuote ('\\' :: tripleQuote) t) = t :=
  untq_tqesc_aux t.length t le_rfl

/-- Round trip of quote_string and unquote_string for a value containing a
newline or a triple quote (the triple-quoted encoding path). -/
theorem quote_roundtrip_multiline (s : Str)
    (hA : (containsSub ['\n'] s || containsSub tripleQuote s) = true) :
    unquote_string (quote_string s) = s := by
  have hq : quote_string s
      = tripleQuote ++ (pyReplace tripleQuote ('\\' :: tripleQuote)
          (pyReplace ['\\'] ['\\', '\\'] s)) ++ tripleQuote := by
    simp only [quote_string, hA, if_true]
  rw [hq]
  set e2 := pyReplace tripleQuote ('\\' :: tripleQuote)
    (pyReplace ['\\'] ['\\', '\\'] s) with he2
  have hv : pyStrip (tripleQuote ++ e2 ++ tripleQuote)
      = tripleQuote ++ e2 ++ tripleQuote :=
    pyStrip_eq_self rfl (by decide)
      (by
        rw [List.getLast?_append_of_ne_nil _ (by decide : (tripleQuote : Str) ≠ [])]
        rfl)
      (by decide)
  have hpre : tripleQuote.isPrefixOf (tripleQuote ++ e2 ++ tripleQuote) = true := by
    rw [List.append_assoc]
    exact isPrefixOf_append_self _ _
  have hsuf : tripleQuote.isSuffixOf (tripleQuote ++ e2 ++ tripleQuote) = true := by
    rw [List.isSuffixOf, List.reverse_append,
      show (tripleQuote.reverse : Str) = tripleQuote from rfl]
    exact isPrefixOf_append_self _ _
  have hlen : 6 ≤ (tripleQuote ++ e2 ++ tripleQuote : Str).length := by
    simp only [List.append_assoc, List.length_append, tripleQuote, List.length_cons,
      List.length_nil]
    omega
  simp only [unquote_string, hv]
  rw [if_pos (by rw [hpre, hsuf, decide_eq_true hlen]; rfl)]
  have hdrop : (tripleQuote ++ e2 ++ tripleQuote : Str).drop 3 = e2 ++ tripleQuote := by
    rw [List.append_assoc, show (3 : Nat) = (tripleQuote : Str).length from rfl]
    exact List.drop_left _ _
  have hlen6 : (tripleQuote ++ e2 ++ tripleQuote : Str).length - 6 = e2.length := by
    simp only [List.append_assoc, List.length_append, tripleQuote, List.length_cons,
      List.length_nil]
    omega
  rw [hdrop, hlen6, List.take_left, he2, untq_tqesc, pyReplace_double_cancel]

/-- Evaluation of unquote_string on a regular single-quoted token when the
triple-quote branch does not fire. -/
theorem unquote_regular (e : Str)
    (hTC : (tripleQuote.isPrefixOf ('"' :: e ++ ['"']) &&
            tripleQuote.isSuffixOf ('"' :: e ++ ['"']) &&
            decide (6 ≤ ('"' :: e ++ ['"'] : Str).length)) = false) :
    unquote_string ('"' :: e ++ ['"'])
      = pyReplace ['\\', '\\'] ['\\'] (pyReplace ['"', '"'] ['"'] e) := by
  have hv : pyStrip ('"' :: e ++ ['"']) = '"' :: e ++ ['"'] :=
    pyStrip_eq_self rfl (by decide)
      (by
        rw [show ('"' :: e ++ ['"'] : Str) = ('"' :: e) ++ ['"'] from rfl,
          List.getLast?_append_of_ne_nil _ (by simp)]
        rfl)
      (by decide)
  have hp1 : (['"'] : Str).isPrefixOf ('"' :: e ++ ['"']) = true := by
    simp [List.isPrefixOf]
  have hs1 : (['"'] : Str).isSuffixOf ('"' :: e ++ ['"']) = true := by
    rw [List.isSuffixOf, show ('"' :: e ++ ['"'] : Str) = ('"' :: e) ++ ['"'] from rfl,
      List.reverse_append]
    simp [List.isPrefixOf]
  have hl1 : 2 ≤ ('"' :: e ++ ['"'] : Str).length := by
    simp
  simp only [unquote_string, hv, hTC, Bool.false_eq_true, if_false]
  rw [if_pos (by rw [hp1, hs1, decide_eq_true hl1]; rfl)]
  have hdrop : ('"' :: e ++ ['"'] : Str).drop 1 = e ++ ['"'] := rfl
  have hlen2 : ('"' :: e ++ ['"'] : Str).length - 2 = e.length := by
    simp
  rw [hdrop, hlen2, List.take_left]

/-- C2: unquote_string inverts quote_string for every string except the
quote-bracketed ones: any string containing a newline or a triple quote round
trips through the triple-quoted encoding, and any other string round trips
unless it has length at least two and both starts and ends with a double
quote (the regular quoting of those collides with the triple-quote reading,
see the counterexample). -/
theorem C2_quoting_idempotence (s : Str)
    (h : containsSub ['\n'] s = false → containsSub tripleQuote s = false →
      ¬(2 ≤ s.length ∧ s.head? = some '"' ∧ s.getLast? = some '"')) :
    unquote_string (quote_string s) = s := by
  rcases s with _ | ⟨c, rest⟩
  · decide
  by_cases hA : (containsSub ['\n'] (c :: rest) || containsSub tripleQuote (c :: rest)) = true
  · exact quote_roundtrip_multiline _ hA
  simp only [Bool.or_eq_true, not_or, Bool.not_eq_true] at hA
  obtain ⟨hn, ht⟩ := hA
  have hsh := h hn ht
  have hq : quote_string (c :: rest)
      = '"' :: (pyReplace ['"'] ['"', '"']
          (pyReplace ['\\'] ['\\', '\\'] (c :: rest))) ++ ['"'] := by
    simp only [quote_string, hn, ht, Bool.or_false, Bool.false_eq_true, if_false]
  rw [hq]
  by_cases hc : c = '"'
  case neg =>
    obtain ⟨d, w, hdw, hdq⟩ := quoteEsc_head (c :: rest) c rest rfl hc
    have hpre : tripleQuote.isPrefixOf
        ('"' :: (pyReplace ['"'] ['"', '"']
          (pyReplace ['\\'] ['\\', '\\'] (c :: rest))) ++ ['"']) = false := by
      rw [hdw]
      simp [tripleQuote, List.isPrefixOf, Ne.symm hdq]
    rw [unquote_regular _ (by rw [hpre]; simp),
      pyReplace_double_cancel '"' _, pyReplace_double_cancel '\\' _]
  subst hc
  rcases rest with _ | ⟨r, rest'⟩
  · decide
  have hlast : ('"' :: r :: rest' : Str).getLast? ≠ some '"' := fun hl =>
    hsh ⟨by simp only [List.length_cons]; omega, rfl, hl⟩
  have hene : pyReplace ['"'] ['"', '"']
      (pyReplace ['\\'] ['\\', '\\'] ('"' :: r :: rest')) ≠ [] := fun hnil => by
    have h1 : pyReplace ['\\'] ['\\', '\\'] ('"' :: r :: rest') = [] :=
      pyReplace_eq_nil (by simp) hnil
    exact absurd (pyReplace_eq_nil (by simp) h1) (by simp)
  have he_last : (pyReplace ['"'] ['"', '"']
      (pyReplace ['\\'] ['\\', '\\'] ('"' :: r :: rest'))).getLast? ≠ some '"' :=
    fun hEl => hlast (bs_last _ (dq_last _ hEl))
  obtain ⟨g, y, hgy⟩ : ∃ g y, (pyReplace ['"'] ['"', '"']
      (pyReplace ['\\'] ['\\', '\\'] ('"' :: r :: rest'))).reverse = g :: y := by
    cases hrev : (pyReplace ['"'] ['"', '"']
        (pyReplace ['\\'] ['\\', '\\'] ('"' :: r :: rest'))).reverse with
    | nil => exact absurd (by simpa using congrArg List.reverse hrev) hene
    | cons g y => exact ⟨g, y, rfl⟩
  have hg : g ≠ '"' := fun hgq => by
    apply he_last
    rw [← List.head?_reverse, hgy, hgq]
    rfl
  have hsuf : tripleQuote.isSuffixOf
      ('"' :: (pyReplace ['"'] ['"', '"']
        (pyReplace ['\\'] ['\\', '\\'] ('"' :: r :: rest'))) ++ ['"']) = false := by
    rw [List.isSuffixOf,
      show ('"' :: (pyReplace ['"'] ['"', '"']
          (pyReplace ['\\'] ['\\', '\\'] ('"' :: r :: rest'))) ++ ['"'] : Str)
        = ('"' :: pyReplace ['"'] ['"', '"']
            (pyReplace ['\\'] ['\\', '\\'] ('"' :: r :: rest'))) ++ ['"'] from rfl,
      List.reverse_append, show ((['"'] : Str).reverse) = ['"'] from rfl,
      List.reverse_cons, hgy,
      show (tripleQuote.reverse : Str) = tripleQuote from rfl]
    simp [tripleQuote, List.isPrefixOf, Ne.symm hg]
  rw [unquote_regular _ (by rw [hsuf]; simp),
    pyReplace_double_cancel '"' _, pyReplace_double_cancel '\\' _]

/-- Counterexample to C2 as stated: the two-character string consisting of two
double quotes is regular-quoted into six consecutive double quotes, which
unquote_string reads as an empty triple-quoted string. -/
theorem C2_counterexample :
    unquote_string (quote_string ['"', '"']) = [] ∧ (['"', '"'] : Str) ≠ [] := by
  constructor
  · decide
  · decide

/-- Witness for C2 at a string containing a newline, a backslash and a double
quote. -/
theorem C2_quoting_idempotence_witness :
    unquote_string (quote_string ['a', '\n', '\\', '"']) = ['a', '\n', '\\', '"'] :=
  C2_quoting_idempotence ['a', '\n', '\\', '"'] (fun hf _ => absurd hf (by decide))

/-! Claim C1 -/

theorem takeWhile_eq_self_of_all (p : Char → Bool) (l : Str)
    (h : ∀ c ∈ l, p c = true) : l.takeWhile p = l := by
  induction l with
  | nil => rfl
  | cons c t ih =>
    rw [List.takeWhile_cons, if_pos (h c (by simp))]
    rw [ih (fun x hx => h x (List.mem_cons_of_mem c hx))]

theorem dropWhile_eq_nil_of_all (p : Char → Bool) (l : Str)
    (h : ∀ c ∈ l, p c = true) : l.dropWhile p = [] := by
  induction l with
  | nil => rfl
  | cons c t ih =>
    rw [List.dropWhile_cons, if_pos (h c (by simp))]
    exact ih (fun x hx => h x (List.mem_cons_of_mem c hx))

theorem takeWhile_append_of_all (p : Char → Bool) (a b : Str)
    (h : ∀ c ∈ a, p c = true) : (a ++ b).takeWhile p = a ++ b.takeWhile p := by
  induction a with
  | nil => rfl
  | cons c t ih =>
    rw [List.cons_append, List.takeWhile_cons, if_pos (h c (by simp))]
    rw [ih (fun x hx => h x (List.mem_cons_of_mem c hx))]
    rfl

/-- Everything about a decimal digit character that the round trip needs. -/
theorem digitChar_facts (m : Nat) (h : m ≤ 9) :
    (digitChar m).toNat = 48 + m ∧ (digitChar m).isDigit = true ∧
    safeChar (digitChar m) ∧ digitChar m ≠ '-' ∧ digitChar m ≠ '+' ∧
    digitChar m ≠ 'n' ∧ digitChar m ≠ 't' ∧ digitChar m ≠ 'f' ∧
    digitChar m ≠ '.' ∧ (digitChar m).toLower = digitChar m ∧
    digitChar m ≠ 'e' ∧ digitChar m ≠ '"' := by
  interval_cases m <;> decide

/-- Structure of the Python decimal representation of a natural number:
nonempty, all digit characters, and its digits evaluate back to the
number. -/
theorem natToDigitsAux_spec :
    ∀ fuel n, n ≤ fuel →
      (∃ m ds, m ≤ 9 ∧ natToDigitsAux fuel n = digitChar m :: ds) ∧
      (∀ c ∈ natToDigitsAux fuel n, ∃ j, j ≤ 9 ∧ c = digitChar j) ∧
      digitsVal (natToDigitsAux fuel n) = n := by
  intro fuel
  induction fuel with
  | zero =>
    intro n hn
    have h0 : n = 0 := Nat.le_zero.mp hn
    subst h0
    exact ⟨⟨0, [], by omega, rfl⟩, by decide, rfl⟩
  | succ f ih =>
    intro n hn
    rw [natToDigitsAux]
    by_cases h10 : n < 10
    · rw [if_pos h10]
      refine ⟨⟨n, [], by omega, rfl⟩, ?_, ?_⟩
      · intro c hc
        rw [List.mem_singleton] at hc
        exact ⟨n, by omega, hc⟩
      · rw [digitsVal]
        simp only [List.foldl_cons, List.foldl_nil, (digitChar_facts n (by omega)).1]
        omega
    · rw [if_neg h10]
      have hpos : 0 < n := by omega
      have hlt := Nat.div_lt_self hpos (by omega : 1 < 10)
      obtain ⟨⟨m, ds, hm9, hds⟩, hmem, hval⟩ := ih (n / 10) (by omega)
      refine ⟨⟨m, ds ++ [digitChar (n % 10)], hm9, by rw [hds]; rfl⟩, ?_, ?_⟩
      · intro c hc
        rw [List.mem_append] at hc
        rcases hc with hc | hc
        · exact hmem c hc
        · rw [List.mem_singleton] at hc
          exact ⟨n % 10, by omega, hc⟩
      · rw [digitsVal, List.foldl_append]
        rw [show List.foldl (fun a c => 10 * a + (c.toNat - 48)) 0
            (natToDigitsAux f (n / 10)) = digitsVal (natToDigitsAux f (n / 10)) from rfl]
        rw [hval]
        simp only [List.foldl_cons, List.foldl_nil,
          (digitChar_facts (n % 10) (by omega)).1]
        omega

theorem natToDigits_spec (n : Nat) :
    (∃ m ds, m ≤ 9 ∧ natToDigits n = digitChar m :: ds) ∧
    (∀ c ∈ natToDigits n, ∃ j, j ≤ 9 ∧ c = digitChar j) ∧
    digitsVal (natToDigits n) = n :=
  natToDigitsAux_spec n n le_rfl

theorem contains_eq_false_of_all (t : Str) (a : Char) (h : ∀ c ∈ t, c ≠ a) :
    t.contains a = false := by
  induction t with
  | nil => rfl
  | cons c rest ih =>
    simp only [List.contains_cons, Bool.or_eq_false_iff]
    exact ⟨beq_eq_false_iff_ne.mpr (fun hh => h c (by simp) hh.symm),
      ih (fun x hx => h x (List.mem_cons_of_mem c hx))⟩

theorem safeChar_not_newline {c : Char} (h : safeChar c) : c ≠ '\n' ∧ c ≠ '\r' :=
  ⟨fun hc => absurd h.2.2.2 (by rw [hc]; decide),
   fun hc => absurd h.2.2.2 (by rw [hc]; decide)⟩

/-- A nonempty all-digit string matches the numeric regex. -/
theorem is_number_allDigits (s : Str) (hne : s ≠ [])
    (hd : ∀ c ∈ s, c.isDigit = true) : is_number s = true := by
  obtain ⟨c, t, rfl⟩ : ∃ c t, s = c :: t := by
    cases s with
    | nil => exact absurd rfl hne
    | cons c t => exact ⟨c, t, rfl⟩
  have hc : c ≠ '-' := fun hcc => by
    have h2 := hd c (by simp)
    rw [hcc] at h2
    exact absurd h2 (by decide)
  have hdw : (c :: t : Str).dropWhile Char.isDigit = [] :=
    dropWhile_eq_nil_of_all _ _ hd
  simp [is_number, hc, List.span_eq_take_drop, atLineEnd, hdw, hd c (by simp)]

/-- A minus sign followed by digits matches the numeric regex. -/
theorem is_number_negDigits (u : Str) (hne : u ≠ [])
    (hd : ∀ c ∈ u, c.isDigit = true) : is_number ('-' :: u) = true := by
  obtain ⟨d, t, rfl⟩ : ∃ d t, u = d :: t := by
    cases u with
    | nil => exact absurd rfl hne
    | cons d t => exact ⟨d, t, rfl⟩
  have hdw : (d :: t : Str).dropWhile Char.isDigit = [] :=
    dropWhile_eq_nil_of_all _ _ hd
  simp [is_number, List.span_eq_take_drop, atLineEnd, hdw, hd d (by simp)]

theorem pyIntOfString_digitChars (s : Str) (hne : s ≠ [])
    (hd : ∀ c ∈ s, ∃ j, j ≤ 9 ∧ c = digitChar j) :
    pyIntOfString s = (digitsVal s : Int) := by
  obtain ⟨c, t, rfl⟩ : ∃ c t, s = c :: t := by
    cases s with
    | nil => exact absurd rfl hne
    | cons c t => exact ⟨c, t, rfl⟩
  obtain ⟨j, hj, hcj⟩ := hd c (by simp)
  have hminus : c ≠ '-' := by rw [hcj]; exact (digitChar_facts j hj).2.2.2.1
  have hplus : c ≠ '+' := by rw [hcj]; exact (digitChar_facts j hj).2.2.2.2.1
  have hstrip : pyStrip (c :: t) = c :: t :=
    pyStrip_nonws _ (fun x hx => by
      obtain ⟨i, hi, hxi⟩ := hd x hx
      rw [hxi]
      exact (digitChar_facts i hi).2.2.1.2.2.2)
  simp [pyIntOfString, hstrip, hminus, hplus]

theorem pyIntOfString_negDigitChars (u : Str)
    (hd : ∀ c ∈ u, ∃ j, j ≤ 9 ∧ c = digitChar j) :
    pyIntOfString ('-' :: u) = - (digitsVal u : Int) := by
  have hstrip : pyStrip ('-' :: u) = '-' :: u :=
    pyStrip_nonws _ (fun x hx => by
      rcases List.mem_cons.mp hx with rfl | hx
      · decide
      obtain ⟨i, hi, hxi⟩ := hd x hx
      rw [hxi]
      exact (digitChar_facts i hi).2.2.1.2.2.2)
  simp [pyIntOfString, hstrip]

/-- parse_primitive_value on an unquoted numeric token without dot or
exponent yields the parsed integer. -/
theorem ppv_number_token (c : Char) (t : Str)
    (hhead : c ≠ '"')
    (hnn : (c :: t : Str) ≠ "null".data)
    (hnt : (c :: t : Str) ≠ "true".data)
    (hnf : (c :: t : Str) ≠ "false".data)
    (hnum : is_number (c :: t) = true)
    (hdot : (c :: t : Str).contains '.' = false)
    (he : (pyLower (c :: t)).contains 'e' = false)
    (hstrip : pyStrip (c :: t) = c :: t) :
    parse_primitive_value (c :: t) = .int (pyIntOfString (c :: t)) := by
  have hq : (['"'] : Str).isPrefixOf (c :: t) = false := by
    simp [List.isPrefixOf]
    exact fun h => absurd h.symm hhead
  have hq3 : tripleQuote.isPrefixOf (c :: t) = false := by
    simp [tripleQuote, List.isPrefixOf]
    exact fun h => absurd h.symm hhead
  simp only [parse_primitive_value, hstrip, hq, hq3, Bool.false_and, Bool.and_false,
    Bool.or_self, Bool.false_eq_true, if_false]
  rw [if_neg (by simp [hnn]), if_neg hnt, if_neg hnf, if_pos hnum,
    if_neg (by intro hcon; rw [hdot, he] at hcon; exact absurd hcon (by decide))]

/-- Token facts for an integer value: the Python repr is a nonempty safe
token that parse_primitive_value maps back to the integer. -/
theorem intRepr_token_facts (k : Int) :
    intRepr k ≠ [] ∧ (∀ c ∈ intRepr k, safeChar c) ∧
    parse_primitive_value (intRepr k) = .int k := by
  obtain ⟨⟨m, ds, hm9, hds⟩, hmem, hval⟩ := natToDigits_spec k.natAbs
  have hdig : ∀ c ∈ natToDigits k.natAbs, c.isDigit = true := fun c hc => by
    obtain ⟨j, hj, hcj⟩ := hmem c hc
    rw [hcj]
    exact (digitChar_facts j hj).2.1
  have hsafe : ∀ c ∈ natToDigits k.natAbs, safeChar c := fun c hc => by
    obtain ⟨j, hj, hcj⟩ := hmem c hc
    rw [hcj]
    exact (digitChar_facts j hj).2.2.1
  have hstripD : pyStrip (natToDigits k.natAbs) = natToDigits k.natAbs :=
    pyStrip_nonws _ (fun c hc => (hsafe c hc).2.2.2)
  have hdot : ∀ c ∈ natToDigits k.natAbs, c ≠ '.' := fun c hc => by
    obtain ⟨j, hj, hcj⟩ := hmem c hc
    rw [hcj]
    exact (digitChar_facts j hj).2.2.2.2.2.2.2.2.1
  have hlow : ∀ c ∈ pyLower (natToDigits k.natAbs), c ≠ 'e' := fun c hc => by
    obtain ⟨x, hx, hxc⟩ := List.mem_map.mp hc
    obtain ⟨j, hj, hxj⟩ := hmem x hx
    rw [← hxc, hxj, (digitChar_facts j hj).2.2.2.2.2.2.2.2.2.1]
    exact (digitChar_facts j hj).2.2.2.2.2.2.2.2.2.2.1
  have hnd : natToDigits k.natAbs ≠ [] := by rw [hds]; simp
  by_cases hneg : k < 0
  · rw [intRepr, if_pos hneg]
    refine ⟨by simp, ?_, ?_⟩
    · intro c hc
      rcases List.mem_cons.mp hc with rfl | hc
      · decide
      exact hsafe c hc
    · rw [ppv_number_token '-' (natToDigits k.natAbs) (by decide)
        (by rw [hds, show ("null".data : Str) = 'n' :: "ull".data from rfl]; simp)
        (by rw [hds, show ("true".data : Str) = 't' :: "rue".data from rfl]; simp)
        (by rw [hds, show ("false".data : Str) = 'f' :: "alse".data from rfl]; simp)
        (is_number_negDigits _ hnd hdig)
        (contains_eq_false_of_all _ _ (fun c hc => by
          rcases List.mem_cons.mp hc with rfl | hc
          · decide
          · exact hdot c hc))
        (contains_eq_false_of_all _ _ (fun c hc => by
          rw [show pyLower ('-' :: natToDigits k.natAbs)
              = '-' :: pyLower (natToDigits k.natAbs) from rfl] at hc
          rcases List.mem_cons.mp hc with rfl | hc2
          · decide
          · exact hlow _ hc2))
        (pyStrip_nonws _ (fun c hc => by
          rcases List.mem_cons.mp hc with rfl | hc
          · decide
          · exact (hsafe c hc).2.2.2))]
      rw [pyIntOfString_negDigitChars _ hmem, hval]
      congr 1
      omega
  · rw [intRepr, if_neg hneg]
    refine ⟨hnd, hsafe, ?_⟩
    rw [hds]
    rw [ppv_number_token (digitChar m) ds
      ((digitChar_facts m hm9).2.2.1.1)
      (by rw [show ("null".data : Str) = 'n' :: "ull".data from rfl]
          intro h
          exact (digitChar_facts m hm9).2.2.2.2.2.1 (List.cons_eq_cons.mp h).1)
      (by rw [show ("true".data : Str) = 't' :: "rue".data from rfl]
          intro h
          exact (digitChar_facts m hm9).2.2.2.2.2.2.1 (List.cons_eq_cons.mp h).1)
      (by rw [show ("false".data : Str) = 'f' :: "alse".data from rfl]
          intro h
          exact (digitChar_facts m hm9).2.2.2.2.2.2.2.1 (List.cons_eq_cons.mp h).1)
      (by rw [← hds]; exact is_number_allDigits _ hnd hdig)
      (by rw [← hds]; exact contains_eq_false_of_all _ _ hdot)
      (by rw [← hds]; exact contains_eq_false_of_all _ _ hlow)
      (by rw [← hds]; exact hstripD)]
    rw [← hds, pyIntOfString_digitChars _ hnd hmem, hval]
    congr 1
    omega

/-- Token facts for the three scalar shapes of the round trip. -/
theorem scalar_token_facts (v : Value)
    (hv : v = .null ∨ (∃ b, v = .bool b) ∨ (∃ k, v = .int k)) :
    _format_primitive_value [','] v false false ≠ [] ∧
    (∀ c ∈ _format_primitive_value [','] v false false, safeChar c) ∧
    parse_primitive_value (_format_primitive_value [','] v false false) = v := by
  rcases hv with rfl | ⟨b, rfl⟩ | ⟨k, rfl⟩
  · exact ⟨by decide, by decide, rfl⟩
  · cases b
    · exact ⟨by decide, by decide, rfl⟩
    · exact ⟨by decide, by decide, rfl⟩
  · exact intRepr_token_facts k

theorem joinTail_mem (ts : List Str)
    (hts : ∀ u ∈ ts, ∀ c ∈ u, safeChar c) :
    ∀ c ∈ joinTail ts, safeChar c ∨ c = ',' ∨ c = ' ' := by
  induction ts with
  | nil => intro c hc; simp [joinTail] at hc
  | cons u us ih =>
    intro c hc
    rw [joinTail] at hc
    rcases List.mem_cons.mp hc with rfl | hc
    · exact Or.inr (Or.inl rfl)
    rcases List.mem_cons.mp hc with rfl | hc
    · exact Or.inr (Or.inr rfl)
    rcases List.mem_append.mp hc with hc | hc
    · exact Or.inl (hts u (by simp) c hc)
    · exact ih (fun w hw => hts w (List.mem_cons_of_mem u hw)) c hc

theorem join_last_safe (t : Str) (ts : List Str)
    (ht : t ≠ [] ∧ ∀ c ∈ t, safeChar c)
    (hts : ∀ u ∈ ts, u ≠ [] ∧ ∀ c ∈ u, safeChar c) :
    ∃ c, (t ++ joinTail ts).getLast? = some c ∧ safeChar c := by
  induction ts generalizing t with
  | nil =>
    obtain ⟨c, hc⟩ : ∃ c, t.getLast? = some c := by
      cases hgl : t.getLast? with
      | none => exact absurd (List.getLast?_eq_none_iff.mp hgl) ht.1
      | some c => exact ⟨c, rfl⟩
    exact ⟨c, by rw [joinTail, List.append_nil]; exact hc,
      ht.2 c (List.mem_of_mem_getLast? hc)⟩
  | cons u us ih =>
    obtain ⟨c, hc, hcs⟩ := ih u (hts u (by simp)) (fun w hw => hts w (List.mem_cons_of_mem u hw))
    refine ⟨c, ?_, hcs⟩
    rw [joinTail, show (',' :: ' ' :: (u ++ joinTail us) : Str)
        = [',', ' '] ++ (u ++ joinTail us) from rfl]
    have hune : u ++ joinTail us ≠ [] := fun hn =>
      (hts u (by simp)).1 (List.append_eq_nil.mp hn).1
    rw [List.getLast?_append_of_ne_nil _ (by simp [hune]),
      List.getLast?_append_of_ne_nil _ hune]
    exact hc

/-- The decoder's header matcher on the exact line shape that the encoder
emits for a root-level primitive array. -/
theorem parse_header_rootN (ds joined : Str) (hds : ds ≠ [])
    (hdsd : ∀ c ∈ ds, c.isDigit = true)
    (hjh : ∃ c cs, joined = c :: cs ∧ isPyWs c = false) :
    _parse_header ("root".data ++ '[' :: ds ++ ']' :: ':' :: ' ' :: joined)
      = some ⟨"root".data, true, some (digitsVal ds), [], [], joined⟩ := by
  obtain ⟨c0, cs0, rfl, hc0⟩ := hjh
  obtain ⟨d0, ds0, rfl⟩ : ∃ d0 ds0, ds = d0 :: ds0 := by
    cases ds with
    | nil => exact absurd rfl hds
    | cons d0 ds0 => exact ⟨d0, ds0, rfl⟩
  rw [show ("root".data ++ '[' :: (d0 :: ds0) ++ ']' :: ':' :: ' ' :: (c0 :: cs0) : Str)
      = 'r' :: 'o' :: 'o' :: 't' :: '[' ::
        ((d0 :: ds0) ++ ']' :: ':' :: ' ' :: (c0 :: cs0)) from rfl]
  have hkey : matchKeyTok ('r' :: 'o' :: 'o' :: 't' :: '[' ::
      ((d0 :: ds0) ++ ']' :: ':' :: ' ' :: (c0 :: cs0)))
      = some ("root".data, '[' :: ((d0 :: ds0) ++ ']' :: ':' :: ' ' :: (c0 :: cs0))) := by
    simp [matchKeyTok, isWordChar, List.takeWhile_cons]
  have htw : ((d0 :: ds0) ++ ']' :: ':' :: ' ' :: (c0 :: cs0) : Str).takeWhile Char.isDigit
      = d0 :: ds0 := by
    rw [takeWhile_append_of_all _ _ _ hdsd]
    simp [List.takeWhile_cons]
  have hsize : matchOptSize ('[' :: ((d0 :: ds0) ++ ']' :: ':' :: ' ' :: (c0 :: cs0)))
      = some (some (digitsVal (d0 :: ds0)), ':' :: ' ' :: (c0 :: cs0)) := by
    simp only [matchOptSize, htw]
    rw [List.drop_left]
    simp
  have hcols : matchOptCols (':' :: ' ' :: (c0 :: cs0))
      = some (none, ':' :: ' ' :: (c0 :: cs0)) := by
    simp [matchOptCols]
  simp only [_parse_header, hkey, hsize, hcols]
  have hdw : List.dropWhile isPyWs (' ' :: c0 :: cs0) = c0 :: cs0 := by
    rw [List.dropWhile_cons, if_pos (by decide : isPyWs ' ' = true),
      List.dropWhile_cons, if_neg (by simp [hc0])]
  simp [hdw]

/-- One step of _parse_block on a header whose rest is a nonblank primitive
row. -/
theorem parse_block_restArray (opts : DecodeOptions) (delim : Str) (fuel : Nat)
    (lines : List Str) (hdr : HeaderInfo)
    (h1 : hdr.rest ≠ []) (h2 : hdr.is_array = true)
    (h3 : (pyStrip hdr.rest).isEmpty = false) :
    _parse_block opts delim (fuel + 1) lines hdr
      = .ok (.list ((split_line_by_delimiter hdr.rest delim).map parse_primitive_value), 1) := by
  rw [_parse_block]
  simp [h1, h2, h3]

/-- One step of _parse_lines on a block-header line with a non-index key. -/
theorem parse_lines_headerLine (opts : DecodeOptions) (delim : Str) (fuel : Nat)
    (first : Str) (restL : List Str)
    (hdr : HeaderInfo) (res : Value) (c : Nat)
    (hstrip : pyStrip first = first)
    (hph : _parse_header first = some hdr)
    (hpb : _parse_block opts delim fuel (first :: restL) hdr = .ok (res, c))
    (hidx : isIndexKey hdr.key = false) :
    _parse_lines opts delim (fuel + 1) (first :: restL) 0
      = .ok (some (.obj [(hdr.key, res)]), c) := by
  rw [_parse_lines]
  simp [hstrip, hph, hpb, hidx]

/-- The decoder top loop on a single data line that parses to a single-field
object. -/
theorem decodeTopLoop_singleObj (opts : DecodeOptions) (delim : Str) (f : Nat)
    (line : Str) (k : Str) (v : Value)
    (hne : (pyStrip line).isEmpty = false)
    (hpl : _parse_lines opts delim (f + 1) [line] 0 = .ok (some (.obj [(k, v)]), 1)) :
    decodeTopLoop opts delim (f + 2) [line] 0 (.obj []) = .ok (.obj [(k, v)]) := by
  rw [show f + 2 = (f + 1) + 1 from rfl, decodeTopLoop]
  simp only [List.length_cons, List.length_nil, Nat.zero_lt_one, if_true,
    List.getD_cons_zero, hne, Bool.false_eq_true, if_false, List.drop_zero, hpl]
  rw [show pyUpdateFields [] [(k, v)] = [(k, v)] from rfl]
  rw [decodeTopLoop]
  simp

/-- The header phase on a version line followed by one data line. -/
theorem parseHeaders_versionData (t : Str) (hLs : pyStrip ('r' :: t) = 'r' :: t) :
    parseHeadersAux ["#version 1.0".data, 'r' :: t] [','] = .ok (['r' :: t], [',']) := by
  have hstep : parseHeadersAux ["#version 1.0".data, 'r' :: t] [',']
      = parseHeadersAux ['r' :: t] [','] := by rfl
  rw [hstep, parseHeadersAux]
  simp [hLs, List.isPrefixOf, List.headD]

theorem map_parse_tokens (ys : List Value)
    (h : ∀ w ∈ ys,
      parse_primitive_value (_format_primitive_value [','] w false false) = w) :
    (ys.map (fun w => _format_primitive_value [','] w false false)).map
      parse_primitive_value = ys := by
  induction ys with
  | nil => rfl
  | cons y ys ih =>
    simp only [List.map_cons, h y (by simp)]
    rw [ih (fun w hw => h w (List.mem_cons_of_mem y hw))]

/-- The encoder output on a nonempty list of flat scalars that fits on a
single line: the version header and one primitive-array line under the
synthetic root key. -/
theorem encode_scalarList (x : Value) (xr : List Value)
    (hx : isObjValue x = false)
    (hflat : (x :: xr).all (fun w => !isNestedValue w) = true)
    (hlen : (List.intercalate [',', ' ']
        ((x :: xr).map (fun w => _format_primitive_value [','] w false false))).length < 80) :
    encode defaultEncodeOptions (.list (x :: xr))
      = "#version 1.0".data ++ '\n' ::
        ("root".data ++ '[' :: natToDigits (xr.length + 1) ++ ']' :: ':' :: ' ' ::
          List.intercalate [',', ' ']
            ((x :: xr).map (fun w => _format_primitive_value [','] w false false))) := by
  have huni : _is_uniform_object_array (x :: xr) = false := by
    simp [_is_uniform_object_array, List.all_cons, hx]
  have henc1 : _encode_value defaultEncodeOptions [','] 0 (.list (x :: xr)) "root".data
      = ["root".data ++ '[' :: natToDigits (xr.length + 1) ++ ']' :: ':' :: ' ' ::
          List.intercalate [',', ' ']
            ((x :: xr).map (fun w => _format_primitive_value [','] w false false))] := by
    rw [_encode_value]
    simp only [List.isEmpty_cons, Bool.false_eq_true, if_false, huni, hflat, if_true,
      reduceIte]
    rw [show _encode_primitive_array defaultEncodeOptions [','] 0 (x :: xr) "root".data
        = (if (List.intercalate [',', ' ']
              ((x :: xr).map (fun w => _format_primitive_value [','] w false false))).length
              < 80 then
            ["root".data ++ '[' :: natToDigits (x :: xr).length ++ ']' :: ':' :: ' ' ::
              List.intercalate [',', ' ']
                ((x :: xr).map (fun w => _format_primitive_value [','] w false false))]
          else
            ["root".data ++ '[' :: natToDigits (x :: xr).length ++ [']', ':'],
             ' ' :: ' ' :: List.intercalate [',', ' ']
                ((x :: xr).map (fun w => _format_primitive_value [','] w false false))])
        from rfl]
    rw [if_pos hlen]
    simp
  rw [encode, encodeLines]
  rw [show resolveDelimiter defaultEncodeOptions (.list (x :: xr)) = [','] from rfl]
  simp only [ne_eq, not_true_eq_false, if_false, reduceIte]
  rw [show encodeRootLines defaultEncodeOptions [','] (.list (x :: xr))
      = _encode_value defaultEncodeOptions [','] 0 (.list (x :: xr)) "root".data from rfl]
  rw [henc1]
  simp [List.intercalate, List.intersperse]
  rfl

set_option maxHeartbeats 1000000 in
/-- C1: the round-trip law of the spec holds on the verified family but not in
general (see the counterexample): for every nonempty top-level list of
null/bool/int scalars whose comma-joined encoding fits the single-line
threshold, decode of encode returns exactly the original value, and the empty
list also round trips. -/
theorem C1_roundtrip_law (x : Value) (xr : List Value)
    (hsc : ∀ v ∈ x :: xr, v = .null ∨ (∃ b, v = .bool b) ∨ (∃ k, v = .int k))
    (hlen : (List.intercalate [',', ' ']
        ((x :: xr).map (fun w => _format_primitive_value [','] w false false))).length < 80) :
    decode defaultDecodeOptions (encode defaultEncodeOptions (.list (x :: xr)))
      = .ok (.list (x :: xr)) ∧
    decode defaultDecodeOptions (encode defaultEncodeOptions (.list ([] : List Value)))
      = .ok (.list []) := by
  refine ⟨?_, by rfl⟩
  have hxf := scalar_token_facts x (hsc x (by simp))
  have hts : ∀ u ∈ xr.map (fun w => _format_primitive_value [','] w false false),
      u ≠ [] ∧ ∀ c ∈ u, safeChar c := by
    intro u hu
    obtain ⟨w, hw, rfl⟩ := List.mem_map.mp hu
    have h := scalar_token_facts w (hsc w (List.mem_cons_of_mem x hw))
    exact ⟨h.1, h.2.1⟩
  have hx_obj : isObjValue x = false := by
    rcases hsc x (by simp) with rfl | ⟨b, rfl⟩ | ⟨k, rfl⟩ <;> rfl
  have hflat : (x :: xr).all (fun w => !isNestedValue w) = true := by
    rw [List.all_eq_true]
    intro w hw
    rcases hsc w hw with rfl | ⟨b, rfl⟩ | ⟨k, rfl⟩ <;> rfl
  rw [encode_scalarList x xr hx_obj hflat hlen]
  have hJ : List.intercalate [',', ' ']
      ((x :: xr).map (fun w => _format_primitive_value [','] w false false))
      = _format_primitive_value [','] x false false
        ++ joinTail (xr.map (fun w => _format_primitive_value [','] w false false)) := by
    rw [List.map_cons, intercalate_comma_join]
  obtain ⟨cx, csx, hfx⟩ : ∃ c cs,
      _format_primitive_value [','] x false false = c :: cs := by
    cases hh : _format_primitive_value [','] x false false with
    | nil => exact absurd hh hxf.1
    | cons c cs => exact ⟨c, cs, rfl⟩
  have hcx_safe : safeChar cx := hxf.2.1 cx (by rw [hfx]; simp)
  obtain ⟨cl, hcl, hcls⟩ := join_last_safe
    (_format_primitive_value [','] x false false)
    (xr.map (fun w => _format_primitive_value [','] w false false))
    ⟨hxf.1, hxf.2.1⟩ hts
  have hJne : (List.intercalate [',', ' ']
      ((x :: xr).map (fun w => _format_primitive_value [','] w false false)) : Str) ≠ [] := by
    rw [hJ, hfx]
    simp
  have hJlast : (List.intercalate [',', ' ']
      ((x :: xr).map (fun w => _format_primitive_value [','] w false false))).getLast?
      = some cl := by
    rw [hJ]
    exact hcl
  have hJmem : ∀ c ∈ List.intercalate [',', ' ']
      ((x :: xr).map (fun w => _format_primitive_value [','] w false false)),
      c ≠ '\n' ∧ c ≠ '\r' := by
    rw [hJ]
    intro c hc
    rcases List.mem_append.mp hc with hc | hc
    · exact safeChar_not_newline (hxf.2.1 c hc)
    · rcases joinTail_mem _ (fun u hu => (hts u hu).2) c hc with hs | rfl | rfl
      · exact safeChar_not_newline hs
      · exact ⟨by decide, by decide⟩
      · exact ⟨by decide, by decide⟩
  have hJstrip : pyStrip (List.intercalate [',', ' ']
      ((x :: xr).map (fun w => _format_primitive_value [','] w false false)))
      = List.intercalate [',', ' ']
        ((x :: xr).map (fun w => _format_primitive_value [','] w false false)) := by
    rw [hJ, hfx]
    exact pyStrip_eq_self rfl (hcx_safe.2.2.2)
      (by rw [← hfx]; exact hcl) (hcls.2.2.2)
  obtain ⟨⟨mD, dsD, hm9D, hdsD⟩, hmemD, hvalD⟩ := natToDigits_spec (xr.length + 1)
  have hdsne : natToDigits (xr.length + 1) ≠ [] := by rw [hdsD]; simp
  have hdsdig : ∀ c ∈ natToDigits (xr.length + 1), c.isDigit = true := fun c hc => by
    obtain ⟨j, hj, rfl⟩ := hmemD c hc
    exact (digitChar_facts j hj).2.1
  have hdssafe : ∀ c ∈ natToDigits (xr.length + 1), safeChar c := fun c hc => by
    obtain ⟨j, hj, rfl⟩ := hmemD c hc
    exact (digitChar_facts j hj).2.2.1
  have hLmem : ∀ c ∈ ("root".data ++ '[' :: natToDigits (xr.length + 1)
      ++ ']' :: ':' :: ' ' :: List.intercalate [',', ' ']
        ((x :: xr).map (fun w => _format_primitive_value [','] w false false)) : Str),
      c ≠ '\n' ∧ c ≠ '\r' := by
    intro c hc
    rcases List.mem_append.mp hc with hc | hc
    · rcases List.mem_append.mp hc with hc | hc
      · exact (by decide : ∀ d ∈ ("root".data : Str), d ≠ '\n' ∧ d ≠ '\x0d') c hc
      rcases List.mem_cons.mp hc with rfl | hc
      · exact ⟨by decide, by decide⟩
      exact safeChar_not_newline (hdssafe c hc)
    rcases List.mem_cons.mp hc with rfl | hc
    · exact ⟨by decide, by decide⟩
    rcases List.mem_cons.mp hc with rfl | hc
    · exact ⟨by decide, by decide⟩
    rcases List.mem_cons.mp hc with rfl | hc
    · exact ⟨by decide, by decide⟩
    exact hJmem c hc
  have hLlast : (("root".data ++ '[' :: natToDigits (xr.length + 1)
      ++ ']' :: ':' :: ' ' :: List.intercalate [',', ' ']
        ((x :: xr).map (fun w => _format_primitive_value [','] w false false)) : Str)).getLast?
      = some cl := by
    rw [List.getLast?_append_of_ne_nil _ (by simp [hJne])]
    rw [show (']' :: ':' :: ' ' :: List.intercalate [',', ' ']
        ((x :: xr).map (fun w => _format_primitive_value [','] w false false)) : Str)
      = [']', ':', ' '] ++ List.intercalate [',', ' ']
          ((x :: xr).map (fun w => _format_primitive_value [','] w false false)) from rfl]
    rw [List.getLast?_append_of_ne_nil _ hJne]
    exact hJlast
  have hLstrip : pyStrip ("root".data ++ '[' :: natToDigits (xr.length + 1)
      ++ ']' :: ':' :: ' ' :: List.intercalate [',', ' ']
        ((x :: xr).map (fun w => _format_primitive_value [','] w false false)))
      = "root".data ++ '[' :: natToDigits (xr.length + 1)
        ++ ']' :: ':' :: ' ' :: List.intercalate [',', ' ']
          ((x :: xr).map (fun w => _format_primitive_value [','] w false false)) :=
    pyStrip_eq_self rfl (by decide) hLlast (hcls.2.2.2)
  have hph : _parse_header ("root".data ++ '[' :: natToDigits (xr.length + 1)
      ++ ']' :: ':' :: ' ' :: List.intercalate [',', ' ']
        ((x :: xr).map (fun w => _format_primitive_value [','] w false false)))
      = some ⟨"root".data, true, some (digitsVal (natToDigits (xr.length + 1))), [], [],
          List.intercalate [',', ' ']
            ((x :: xr).map (fun w => _format_primitive_value [','] w false false))⟩ :=
    parse_header_rootN _ _ hdsne hdsdig
      ⟨cx, csx ++ joinTail (xr.map (fun w => _format_primitive_value [','] w false false)),
        by rw [hJ, hfx]; rfl, hcx_safe.2.2.2⟩
  have hmapped : ((_format_primitive_value [','] x false false
      :: xr.map (fun w => _format_primitive_value [','] w false false)).map
        parse_primitive_value) = x :: xr := by
    rw [List.map_cons, hxf.2.2,
      map_parse_tokens xr (fun w hw =>
        (scalar_token_facts w (hsc w (List.mem_cons_of_mem x hw))).2.2)]
  have hsplit : split_line_by_delimiter (List.intercalate [',', ' ']
      ((x :: xr).map (fun w => _format_primitive_value [','] w false false))) [',']
      = _format_primitive_value [','] x false false
        :: xr.map (fun w => _format_primitive_value [','] w false false) :=
    split_line_comma_join _ _ ⟨hxf.1, hxf.2.1⟩ hts
  have hpb : _parse_block defaultDecodeOptions [','] 7
      [("root".data ++ '[' :: natToDigits (xr.length + 1)
        ++ ']' :: ':' :: ' ' :: List.intercalate [',', ' ']
          ((x :: xr).map (fun w => _format_primitive_value [','] w false false)) : Str)]
      ⟨"root".data, true, some (digitsVal (natToDigits (xr.length + 1))), [], [],
        List.intercalate [',', ' ']
          ((x :: xr).map (fun w => _format_primitive_value [','] w false false))⟩
      = .ok (.list (x :: xr), 1) := by
    rw [parse_block_restArray defaultDecodeOptions [','] 6 _ _ hJne rfl
      (by rw [show (⟨"root".data, true, some (digitsVal (natToDigits (xr.length + 1))), [], [],
          List.intercalate [',', ' ']
            ((x :: xr).map (fun w => _format_primitive_value [','] w false false))⟩
          : HeaderInfo).rest
        = List.intercalate [',', ' ']
            ((x :: xr).map (fun w => _format_primitive_value [','] w false false)) from rfl,
        hJstrip, hJ, hfx]; rfl)]
    rw [show (⟨"root".data, true, some (digitsVal (natToDigits (xr.length + 1))), [], [],
        List.intercalate [',', ' ']
          ((x :: xr).map (fun w => _format_primitive_value [','] w false false))⟩
        : HeaderInfo).rest
      = List.intercalate [',', ' ']
          ((x :: xr).map (fun w => _format_primitive_value [','] w false false)) from rfl]
    rw [hsplit, hmapped]
  have hpl : _parse_lines defaultDecodeOptions [','] 8
      [("root".data ++ '[' :: natToDigits (xr.length + 1)
        ++ ']' :: ':' :: ' ' :: List.intercalate [',', ' ']
          ((x :: xr).map (fun w => _format_primitive_value [','] w false false)) : Str)] 0
      = .ok (some (.obj [("root".data, .list (x :: xr))]), 1) :=
    parse_lines_headerLine defaultDecodeOptions [','] 7 _ [] _ _ 1 hLstrip hph hpb rfl
  rw [decode, decodeTop]
  rw [pySplitlines_append "#version 1.0".data _ (by decide)]
  rw [pySplitlines_single _ (by simp) hLmem]
  rw [show ("root".data ++ '[' :: natToDigits (xr.length + 1)
      ++ ']' :: ':' :: ' ' :: List.intercalate [',', ' ']
        ((x :: xr).map (fun w => _format_primitive_value [','] w false false)) : Str)
    = 'r' :: ("oot".data ++ '[' :: natToDigits (xr.length + 1)
      ++ ']' :: ':' :: ' ' :: List.intercalate [',', ' ']
        ((x :: xr).map (fun w => _format_primitive_value [','] w false false))) from rfl]
  rw [parseHeaders_versionData ("oot".data ++ '[' :: natToDigits (xr.length + 1)
      ++ ']' :: ':' :: ' ' :: List.intercalate [',', ' ']
        ((x :: xr).map (fun w => _format_primitive_value [','] w false false))) hLstrip]
  simp only [List.isEmpty_cons, Bool.false_eq_true, if_false]
  rw [show decodeFuel ['r' :: ("oot".data ++ '[' :: natToDigits (xr.length + 1)
      ++ ']' :: ':' :: ' ' :: List.intercalate [',', ' ']
        ((x :: xr).map (fun w => _format_primitive_value [','] w false false)))]
    = 7 + 2 from rfl]
  rw [decodeTopLoop_singleObj defaultDecodeOptions [','] 7
    ('r' :: ("oot".data ++ '[' :: natToDigits (xr.length + 1)
      ++ ']' :: ':' :: ' ' :: List.intercalate [',', ' ']
        ((x :: xr).map (fun w => _format_primitive_value [','] w false false))))
    "root".data (.list (x :: xr))
    (by
      show (pyStrip ("root".data ++ '[' :: natToDigits (xr.length + 1)
        ++ ']' :: ':' :: ' ' :: List.intercalate [',', ' ']
          ((x :: xr).map (fun w => _format_primitive_value [','] w false false)))).isEmpty
        = false
      rw [hLstrip]
      rw [show ("root".data ++ '[' :: natToDigits (xr.length + 1)
        ++ ']' :: ':' :: ' ' :: List.intercalate [',', ' ']
          ((x :: xr).map (fun w => _format_primitive_value [','] w false false)) : Str)
        = 'r' :: ("oot".data ++ '[' :: natToDigits (xr.length + 1)
          ++ ']' :: ':' :: ' ' :: List.intercalate [',', ' ']
            ((x :: xr).map (fun w => _format_primitive_value [','] w false false))) from rfl]
      rfl) hpl]
  simp [Except.map, finalRootUnwrap]

set_option maxHeartbeats 1000000 in
/-- Counterexample to C1 as stated: a single-key map under the key root is
unwrapped by the encoder's root handling and again by the decoder's final
unwrap, so the map itself does not survive the round trip. -/
theorem C1_counterexample :
    decode defaultDecodeOptions (encode defaultEncodeOptions
        (.obj [("root".data, .list [.int 1])]))
      = .ok (.list [.int 1]) ∧
    Value.list [.int 1] ≠ Value.obj [("root".data, Value.list [Value.int 1])] :=
  ⟨by rfl, fun h => Value.noConfusion h⟩

/-- Witness for C1 at the list of an int, null and a bool. -/
theorem C1_roundtrip_law_witness :
    decode defaultDecodeOptions (encode defaultEncodeOptions
        (.list [.int 20, .null, .bool true]))
      = .ok (.list [.int 20, .null, .bool true]) ∧
    decode defaultDecodeOptions (encode defaultEncodeOptions (.list ([] : List Value)))
      = .ok (.list []) :=
  C1_roundtrip_law (.int 20) [.null, .bool true]
    (fun v hv => by
      rcases List.mem_cons.mp hv with rfl | hv
      · exact Or.inr (Or.inr ⟨20, rfl⟩)
      rcases List.mem_cons.mp hv with rfl | hv
      · exact Or.inl rfl
      rcases List.mem_cons.mp hv with rfl | hv
      · exact Or.inr (Or.inl ⟨true, rfl⟩)
      exact absurd hv (List.not_mem_nil v))
    (by decide)

end Pytonl
